import Mathlib

/-!
# Verification of the pySpace satellite simulator core

Shallow embedding of the `satelliteSimulator` Python package over the real
numbers, together with proofs settling the frozen claims about it.

Modelling conventions:

* Python floats are modelled as real numbers (`ℝ`); every claim whose content
  is a tolerance bound is settled by proving the exact real-arithmetic
  statement, which implies the bound.
* `math.atan2` is modelled by `Complex.arg ⟨x, y⟩`, which has the same range
  `(-π, π]`, agrees with `atan2` on every quadrant and both axes, and maps
  `(0, 0)` to `0` exactly as CPython does.
* Divisions performed with `numpy` (which yield non-signalling IEEE values
  rather than raising) are modelled by Lean's total real division.  Divisions
  performed with plain `math` operators raise `ZeroDivisionError` in Python;
  where a claim is about that error branch (the geodetic conversion) the
  division is modelled with an explicit zero test returning `Option.none`.
* The unbounded `while` loop of the Kepler solver is modelled with an explicit
  fuel parameter; `none` means the loop has not exited within the given fuel.
-/

namespace PySpace

/-- A 3-vector of reals, modelling the `[x, y, z]` float lists used throughout
the Python sources. -/
structure Vec3 where
  x : ℝ
  y : ℝ
  z : ℝ

namespace Vec3

/-- Componentwise addition (numpy array addition). -/
noncomputable instance : Add Vec3 := ⟨fun a b => ⟨a.x + b.x, a.y + b.y, a.z + b.z⟩⟩

/-- Componentwise subtraction (numpy array subtraction). -/
noncomputable instance : Sub Vec3 := ⟨fun a b => ⟨a.x - b.x, a.y - b.y, a.z - b.z⟩⟩

/-- Componentwise negation. -/
noncomputable instance : Neg Vec3 := ⟨fun a => ⟨-a.x, -a.y, -a.z⟩⟩

/-- Scalar multiplication (numpy scalar-array product). -/
noncomputable instance : SMul ℝ Vec3 := ⟨fun c a => ⟨c * a.x, c * a.y, c * a.z⟩⟩

/-- Division of a vector by a scalar (numpy array / scalar). -/
noncomputable instance : HDiv Vec3 ℝ Vec3 := ⟨fun a c => ⟨a.x / c, a.y / c, a.z / c⟩⟩

theorem add_def (a b : Vec3) : a + b = ⟨a.x + b.x, a.y + b.y, a.z + b.z⟩ := rfl

theorem sub_def (a b : Vec3) : a - b = ⟨a.x - b.x, a.y - b.y, a.z - b.z⟩ := rfl

theorem smul_def (c : ℝ) (a : Vec3) : c • a = ⟨c * a.x, c * a.y, c * a.z⟩ := rfl

theorem div_def (a : Vec3) (c : ℝ) : a / c = ⟨a.x / c, a.y / c, a.z / c⟩ := rfl

theorem ext_iff {a b : Vec3} : a = b ↔ a.x = b.x ∧ a.y = b.y ∧ a.z = b.z := by
  constructor
  · rintro rfl; exact ⟨rfl, rfl, rfl⟩
  · rcases a with ⟨ax, ay, az⟩; rcases b with ⟨bx, by_, bz⟩
    rintro ⟨hx, hy, hz⟩
    simp only at hx hy hz
    rw [hx, hy, hz]

end Vec3

/-- Dot product (`np.dot` on 3-vectors). -/
def dot (a b : Vec3) : ℝ := a.x * b.x + a.y * b.y + a.z * b.z

/-- Cross product (`np.cross` on 3-vectors). -/
def cross (a b : Vec3) : Vec3 :=
  ⟨a.y * b.z - a.z * b.y, a.z * b.x - a.x * b.z, a.x * b.y - a.y * b.x⟩

/-- Euclidean norm (`numpy.linalg.norm` on 3-vectors). -/
noncomputable def norm (v : Vec3) : ℝ := Real.sqrt (v.x ^ 2 + v.y ^ 2 + v.z ^ 2)

theorem norm_nonneg (v : Vec3) : 0 ≤ norm v := Real.sqrt_nonneg _

theorem norm_sq (v : Vec3) : norm v ^ 2 = v.x ^ 2 + v.y ^ 2 + v.z ^ 2 := by
  have h : 0 ≤ v.x ^ 2 + v.y ^ 2 + v.z ^ 2 := by positivity
  simpa [norm] using Real.sq_sqrt h

theorem norm_pos_of_ne {v : Vec3} (h : v ≠ ⟨0, 0, 0⟩) : 0 < norm v := by
  rcases lt_or_eq_of_le (norm_nonneg v) with hlt | heq
  · exact hlt
  · exfalso
    have h2 : v.x ^ 2 + v.y ^ 2 + v.z ^ 2 = 0 := by
      rw [← norm_sq v, ← heq]; ring
    have hx : v.x = 0 := by nlinarith [sq_nonneg v.x, sq_nonneg v.y, sq_nonneg v.z]
    have hy : v.y = 0 := by nlinarith [sq_nonneg v.x, sq_nonneg v.y, sq_nonneg v.z]
    have hz : v.z = 0 := by nlinarith [sq_nonneg v.x, sq_nonneg v.y, sq_nonneg v.z]
    exact h (Vec3.ext_iff.mpr ⟨hx, hy, hz⟩)

/-! ## utils.py -/

/-- Python `angle % (2*math.pi)`: the representative of `angle` in `[0, 2π)`
(Python float `%` takes the sign of the divisor). -/
noncomputable def normaliseAngle (angle : ℝ) : ℝ :=
  angle - 2 * Real.pi * ⌊angle / (2 * Real.pi)⌋

/-- Model of CPython `math.atan2 y x`: the argument of the complex number
`x + y i`, with range `(-π, π]` and `atan2 0 0 = 0`. -/
noncomputable def atan2 (y x : ℝ) : ℝ := Complex.arg ⟨x, y⟩

/-- Source `normalisedAtan2`: `atan2` shifted into `[0, 2π)` by adding `2π`
when negative. -/
noncomputable def normalisedAtan2 (numerator denominator : ℝ) : ℝ :=
  let result := atan2 numerator denominator
  if result < 0 then result + 2 * Real.pi else result

/-- Degrees-to-radians conversion, `math.radians`. -/
noncomputable def radians (d : ℝ) : ℝ := d * Real.pi / 180

/-- Radians-to-degrees conversion, `math.degrees`. -/
noncomputable def degrees (r : ℝ) : ℝ := r * 180 / Real.pi

theorem cos_normaliseAngle (θ : ℝ) : Real.cos (normaliseAngle θ) = Real.cos θ := by
  unfold normaliseAngle
  rw [mul_comm (2 * Real.pi) ((⌊θ / (2 * Real.pi)⌋ : ℤ) : ℝ)]
  exact Real.cos_sub_int_mul_two_pi θ _

theorem sin_normaliseAngle (θ : ℝ) : Real.sin (normaliseAngle θ) = Real.sin θ := by
  unfold normaliseAngle
  rw [mul_comm (2 * Real.pi) ((⌊θ / (2 * Real.pi)⌋ : ℤ) : ℝ)]
  exact Real.sin_sub_int_mul_two_pi θ _

theorem cos_normalisedAtan2 (y x : ℝ) :
    Real.cos (normalisedAtan2 y x) = Real.cos (atan2 y x) := by
  unfold normalisedAtan2
  by_cases h : atan2 y x < 0
  · simp only [h, if_true]
    exact Real.cos_add_two_pi (atan2 y x)
  · simp [h]

theorem sin_normalisedAtan2 (y x : ℝ) :
    Real.sin (normalisedAtan2 y x) = Real.sin (atan2 y x) := by
  unfold normalisedAtan2
  by_cases h : atan2 y x < 0
  · simp only [h, if_true]
    exact Real.sin_add_two_pi (atan2 y x)
  · simp [h]

theorem complexMk_ne_zero {x y : ℝ} (h : ¬(x = 0 ∧ y = 0)) :
    (⟨x, y⟩ : ℂ) ≠ 0 := by
  intro hc
  have hx : x = 0 := congrArg Complex.re hc
  have hy : y = 0 := congrArg Complex.im hc
  exact h ⟨hx, hy⟩

theorem complexAbs_mk (x y : ℝ) :
    Complex.abs ⟨x, y⟩ = Real.sqrt (x ^ 2 + y ^ 2) := by
  rw [Complex.abs_apply, Complex.normSq_mk]
  ring_nf

theorem cos_atan2 {y x : ℝ} (h : ¬(x = 0 ∧ y = 0)) :
    Real.cos (atan2 y x) = x / Real.sqrt (x ^ 2 + y ^ 2) := by
  unfold atan2
  rw [Complex.cos_arg (complexMk_ne_zero h), complexAbs_mk]

theorem sin_atan2 (y x : ℝ) :
    Real.sin (atan2 y x) = y / Real.sqrt (x ^ 2 + y ^ 2) := by
  unfold atan2
  rw [Complex.sin_arg, complexAbs_mk]

/-! ## data.py

The module `satelliteSimulator/data.py` is imported throughout the sources
(`from ..data import GM, EARTHRADIUS, AEGMA96, C20`) but is not part of the
sources given here, so its constants are modelled from the spec. -/

/-- Modelled from the spec: `data.py` is missing; `GM` is the Earth
gravitational parameter μ (km³/s²) used by vis-viva, the mean motion and the
acceleration models.  Standard value; the proofs only use that it is a fixed
positive constant. -/
noncomputable def GM : ℝ := 398600.4418

/-- Modelled from the spec: `data.py` is missing; `EARTHRADIUS` is the
reference Earth radius R_earth (km) used to place ground stations
(`R = R_earth · U(lat,lon)`) and to compute heights. -/
noncomputable def EARTHRADIUS : ℝ := 6378.137

/-- Modelled from the spec: `data.py` is missing; `AEGMA96` is the reference
equatorial radius of the EGM96-style J2 term (km). -/
noncomputable def AEGMA96 : ℝ := 6378.1363

/-- Modelled from the spec: `data.py` is missing; `C20` is the normalised
degree-2, order-0 zonal harmonic coefficient that `denormaliseCoefficient`
rescales. -/
noncomputable def C20 : ℝ := -0.000484165371736

theorem GM_pos : 0 < GM := by unfold GM; norm_num

theorem EARTHRADIUS_pos : 0 < EARTHRADIUS := by unfold EARTHRADIUS; norm_num

/-! ## solveKepler.py -/

namespace SolveKepler

/-- Source `f`: Kepler's equation rearranged to equal 0 at the root. -/
noncomputable def f (E M e : ℝ) : ℝ := E - e * Real.sin E - M

/-- The body of the `while` loop of `solveKepler`: one Newton-Raphson update. -/
noncomputable def newtonStep (e M E : ℝ) : ℝ :=
  E - (E - e * Real.sin E - M) / (1 - e * Real.cos E)

/-- The `while abs(f(E, M, e)) > 1e-8` loop of `solveKepler`, with explicit
fuel: `none` means the loop has not exited within `fuel` iterations (the
source loop is unbounded and would still be running). -/
noncomputable def loop (e M : ℝ) : ℕ → ℝ → Option ℝ
  | 0, E => if |f E M e| > 1e-8 then none else some E
  | fuel + 1, E => if |f E M e| > 1e-8 then loop e M fuel (newtonStep e M E) else some E

end SolveKepler

/-- Source `solveKepler`: Newton iteration for Kepler's equation, initial
guess `π` when `e > 0.8` and `M` otherwise, fuel-indexed as described at
`SolveKepler.loop`. -/
noncomputable def solveKepler (fuel : ℕ) (e M : ℝ) : Option ℝ :=
  SolveKepler.loop e M fuel (if e > 0.8 then Real.pi else M)

/-! ## converters/cart2kep.py -/

/-- The dictionary of keplerian elements returned by `cart2kep`, as an
explicit record (fields named after the dictionary keys). -/
structure KeplerianElements where
  a : ℝ
  e : ℝ
  i : ℝ
  Ω : ℝ
  ω : ℝ
  ν : ℝ

namespace Cart2Kep

/-- Source `calculateUnitOrbitNormal`: componentwise division of `h̅` by its
norm. -/
noncomputable def calculateUnitOrbitNormal (hbar : Vec3) : Vec3 := hbar / norm hbar

/-- Source `calculateInclination`. -/
noncomputable def calculateInclination (W : Vec3) : ℝ :=
  normalisedAtan2 (Real.sqrt (W.x ^ 2 + W.y ^ 2)) W.z

/-- Source `calculateRAAN`. -/
noncomputable def calculateRAAN (W : Vec3) : ℝ := normalisedAtan2 W.x (-W.y)

/-- Source `vectorLength`: Pythagorean length (identical in value to
`numpy.linalg.norm`, which the file also uses). -/
noncomputable def vectorLength (v : Vec3) : ℝ := Real.sqrt (v.x ^ 2 + v.y ^ 2 + v.z ^ 2)

/-- Source `calculateP` (semi-latus rectum `h²/GM`). -/
noncomputable def calculateP (hbar : Vec3) : ℝ := norm hbar ^ 2 / GM

/-- Source `calculateSemiMajAxis` (vis-viva). -/
noncomputable def calculateSemiMajAxis (R V : Vec3) : ℝ :=
  1 / (2 / vectorLength R - vectorLength V ^ 2 / GM)

/-- Source `calculateEccentricity`. -/
noncomputable def calculateEccentricity (a p : ℝ) : ℝ := Real.sqrt (1 - p / a)

/-- Source `calculateMeanMotion`. -/
noncomputable def calculateMeanMotion (a : ℝ) : ℝ := Real.sqrt (GM / a ^ 3)

/-- Source `calculateE` (eccentric anomaly at epoch). -/
noncomputable def calculateE (R V : Vec3) (a n : ℝ) : ℝ :=
  normalisedAtan2 (dot R V / (a ^ 2 * n)) (1 - norm R / a)

/-- Source `calculateU` (argument of latitude). -/
noncomputable def calculateU (R : Vec3) (i Ω : ℝ) : ℝ :=
  normalisedAtan2 (R.z / Real.sin i) (R.x * Real.cos Ω + R.y * Real.sin Ω)

/-- Source `calculateTrueAnom`. -/
noncomputable def calculateTrueAnom (E e : ℝ) : ℝ :=
  normalisedAtan2 (Real.sqrt (1 - e ^ 2) * Real.sin E) (Real.cos E - e)

/-- Source `calculateArgofPer`. -/
noncomputable def calculateArgofPer (u ν : ℝ) : ℝ := u - ν

end Cart2Kep

/-- Source `cart2kep` (converters package copy): cartesian state to
keplerian elements. -/
noncomputable def cart2kep (R V : Vec3) : KeplerianElements :=
  let hbar := cross R V
  let W := Cart2Kep.calculateUnitOrbitNormal hbar
  let i := Cart2Kep.calculateInclination W
  let Ω := Cart2Kep.calculateRAAN W
  let a := Cart2Kep.calculateSemiMajAxis R V
  let p := Cart2Kep.calculateP hbar
  let e := Cart2Kep.calculateEccentricity a p
  let n := Cart2Kep.calculateMeanMotion a
  let E := Cart2Kep.calculateE R V a n
  let ν := Cart2Kep.calculateTrueAnom E e
  let u := Cart2Kep.calculateU R i Ω
  let ω := Cart2Kep.calculateArgofPer u ν
  { a := a, e := e, i := normaliseAngle i, Ω := normaliseAngle Ω,
    ω := normaliseAngle ω, ν := normaliseAngle ν }

/-! ## converters/kep2cart.py -/

namespace Kep2Cart

/-- Source `calculateP` (converters package copy): the P gaussian vector. -/
noncomputable def calculateP (Ω ω i : ℝ) : Vec3 :=
  ⟨Real.cos Ω * Real.cos ω - Real.sin Ω * Real.cos i * Real.sin ω,
   Real.sin Ω * Real.cos ω + Real.cos Ω * Real.cos i * Real.sin ω,
   Real.sin i * Real.sin ω⟩

/-- Source `calculateQ` (converters package copy): the Q gaussian vector. -/
noncomputable def calculateQ (Ω ω i : ℝ) : Vec3 :=
  ⟨-Real.cos Ω * Real.sin ω - Real.sin Ω * Real.cos i * Real.cos ω,
   Real.cos Ω * Real.cos i * Real.cos ω - Real.sin Ω * Real.sin ω,
   Real.sin i * Real.cos ω⟩

/-- Source `calculateGausVects`. -/
noncomputable def calculateGausVects (Ω ω i : ℝ) : Vec3 × Vec3 :=
  (calculateP Ω ω i, calculateQ Ω ω i)

/-- Source `calculateSemLatRect`. -/
noncomputable def calculateSemLatRect (a e : ℝ) : ℝ := a * (1 - e ^ 2)

/-- Source `calculateRadDist`. -/
noncomputable def calculateRadDist (p e ν : ℝ) : ℝ := p / (1 + e * Real.cos ν)

/-- Source `calculatePosition`. -/
noncomputable def calculatePosition (P Q : Vec3) (r ν : ℝ) : Vec3 :=
  let x := r * Real.cos ν
  let y := r * Real.sin ν
  ⟨x * P.x + y * Q.x, x * P.y + y * Q.y, x * P.z + y * Q.z⟩

/-- Source `calculateVelocity`. -/
noncomputable def calculateVelocity (ν a e r : ℝ) (P Q : Vec3) : Vec3 :=
  let x := r * Real.cos ν
  let y := r * Real.sin ν
  let cosE := x / a + e
  let sinE := y / (a * Real.sqrt (1 - e ^ 2))
  let f := Real.sqrt (a * GM) / r
  let g := Real.sqrt (1 - e ^ 2)
  ⟨-f * sinE * P.x + f * g * cosE * Q.x,
   -f * sinE * P.y + f * g * cosE * Q.y,
   -f * sinE * P.z + f * g * cosE * Q.z⟩

end Kep2Cart

/-- Source `kep2cart` (converters package copy): keplerian elements to
cartesian state. -/
noncomputable def kep2cart (kep : KeplerianElements) : Vec3 × Vec3 :=
  let PQ := Kep2Cart.calculateGausVects kep.Ω kep.ω kep.i
  let p := Kep2Cart.calculateSemLatRect kep.a kep.e
  let r := Kep2Cart.calculateRadDist p kep.e kep.ν
  let R := Kep2Cart.calculatePosition PQ.1 PQ.2 r kep.ν
  let V := Kep2Cart.calculateVelocity kep.ν kep.a kep.e r PQ.1 PQ.2
  (R, V)

/-! ## kep2cart.py (historical top-level copy)

Only `calculateP` is embedded: it is the function claim C10 compares against
the converters copy.  (The top-level copy's `calculateQ` ends in
`return [px, py, pz]` with `px`, `py`, `pz` unbound in its scope — a
`NameError` at any call — so it has no value semantics to embed.) -/

namespace Kep2CartLegacy

/-- Source `calculateP` of the top-level `satelliteSimulator/kep2cart.py`:
note the `-` in the y component where the converters copy has `+`. -/
noncomputable def calculateP (Ω ω i : ℝ) : Vec3 :=
  ⟨Real.cos Ω * Real.cos ω - Real.sin Ω * Real.cos i * Real.sin ω,
   Real.sin Ω * Real.cos ω - Real.cos Ω * Real.cos i * Real.sin ω,
   Real.sin i * Real.sin ω⟩

end Kep2CartLegacy

/-! ## converters/latlong2enu.py -/

namespace LatLong2ENU

/-- Source `calculateE` of `latlong2enu.py` (east unit vector; argument in
radians). -/
noncomputable def calculateE (lam : ℝ) : Vec3 := ⟨-Real.sin lam, Real.cos lam, 0⟩

/-- Source `calculateN` of `latlong2enu.py` (north unit vector; arguments in
radians). -/
noncomputable def calculateN (φ lam : ℝ) : Vec3 :=
  ⟨-Real.cos lam * Real.sin φ, -Real.sin lam * Real.sin φ, Real.cos φ⟩

/-- Source `calculateU` of `latlong2enu.py` (up unit vector; arguments in
radians). -/
noncomputable def calculateU (φ lam : ℝ) : Vec3 :=
  ⟨Real.cos lam * Real.cos φ, Real.sin lam * Real.cos φ, Real.sin φ⟩

end LatLong2ENU

/-- Source `calculateENUBasis`: ENU unit basis from latitude and longitude in
degrees. -/
noncomputable def calculateENUBasis (φ lam : ℝ) : Vec3 × Vec3 × Vec3 :=
  let lat := radians φ
  let lon := radians lam
  (LatLong2ENU.calculateE lon, LatLong2ENU.calculateN lat lon,
   LatLong2ENU.calculateU lat lon)

/-! ## converters/ecef2latlong.py -/

/-- Source `calculateLatLon`: longitude via `normalisedAtan2` remapped to
(−180, 180], latitude via `atan(z/√(x²+y²))`.  The latitude division is a
plain `math` float division: on the polar axis (`√(x²+y²) = 0`) CPython
raises `ZeroDivisionError`, modelled here by `none`. -/
noncomputable def calculateLatLon (R : Vec3) : Option (ℝ × ℝ) :=
  let longitude := normalisedAtan2 R.y R.x
  if Real.sqrt (R.x ^ 2 + R.y ^ 2) = 0 then none
  else
    let latitude := Real.arctan (R.z / Real.sqrt (R.x ^ 2 + R.y ^ 2))
    let longDeg := degrees longitude
    let latDeg := degrees latitude
    some (if longDeg > 180 then longDeg - 360 else longDeg, latDeg)

/-- Source `calulateHeight` (name kept with the source's spelling). -/
noncomputable def calulateHeight (R : Vec3) : ℝ :=
  Real.sqrt (R.x ^ 2 + R.y ^ 2 + R.z ^ 2) - EARTHRADIUS

/-- Source `ecef2latlong`: latitude, longitude (degrees) and height (km). -/
noncomputable def ecef2latlong (R : Vec3) : Option (ℝ × ℝ × ℝ) :=
  (calculateLatLon R).map fun lonlat => (lonlat.2, lonlat.1, calulateHeight R)

/-! ## analysis/differences.py -/

namespace Differences

/-- Source `calculateVectorDiff`. -/
noncomputable def calculateVectorDiff (X1 X2 : Vec3) : Vec3 := X2 - X1

/-- Source `calculateH`: unit radial vector. -/
noncomputable def calculateH (R : Vec3) : Vec3 := R / norm R

/-- Source `calculateC`: unit orbit-normal vector. -/
noncomputable def calculateC (R V : Vec3) : Vec3 := cross R V / norm (cross R V)

/-- Source `calculateL`: along-track vector, the cross product `C × H`. -/
noncomputable def calculateL (C H : Vec3) : Vec3 := cross C H

/-- Source `calculateBasis`: the (H, C, L) triad. -/
noncomputable def calculateBasis (R V : Vec3) : Vec3 × Vec3 × Vec3 :=
  let H := calculateH R
  let C := calculateC R V
  let L := calculateL C H
  (H, C, L)

/-- Source `projectOntoBasis`. -/
noncomputable def projectOntoBasis (x y z ΔX : Vec3) : Vec3 :=
  ⟨dot x ΔX, dot y ΔX, dot z ΔX⟩

end Differences

/-! ## analysis/visibility.py -/

namespace Visibility

/-- Source `getBasis`: ENU basis of an ECEF point, via `ecef2latlong`
(partial: fails on the polar axis, see `calculateLatLon`). -/
noncomputable def getBasis (R : Vec3) : Option (Vec3 × Vec3 × Vec3) :=
  (ecef2latlong R).map fun llh => calculateENUBasis llh.1 llh.2.1

/-- Source `getS2TSVector`: station-to-satellite unit vector projected onto
the station's ENU basis.  The normalising division is a numpy array division
(never raises), modelled by total real division. -/
noncomputable def getS2TSVector (Rs Rp : Vec3) : Option (ℝ × ℝ × ℝ) :=
  let rss := Rs - Rp
  let Rss := rss / norm rss
  (getBasis Rp).map fun enu =>
    (dot Rss enu.1, dot Rss enu.2.1, dot Rss enu.2.2)

/-- Source `calculateAngle`: elevation `θ` and azimuth-from-north `α`, both
in degrees. -/
noncomputable def calculateAngle (rsse rssn rssu : ℝ) : ℝ × ℝ :=
  (degrees (Real.arcsin rssu), degrees (normalisedAtan2 rsse rssn))

/-- Source `latLon2ecef`: ECEF surface position of a ground station given in
degrees. -/
noncomputable def latLon2ecef (lat lon : ℝ) : Vec3 :=
  EARTHRADIUS • LatLong2ENU.calculateU (radians lat) (radians lon)

/-- The elevation/azimuth pair `isVisible` and the pass scan branch on:
`calculateAngle` applied to the `getS2TSVector` projection of the satellite
against the station placed by `latLon2ecef`. -/
noncomputable def stationAngle (Rs : Vec3) (lat lon : ℝ) : Option (ℝ × ℝ) :=
  (getS2TSVector Rs (latLon2ecef lat lon)).map fun t =>
    calculateAngle t.1 t.2.1 t.2.2

/-- Source `isVisible`: true iff the elevation exceeds the masking angle
strictly. -/
noncomputable def isVisible (Rs : Vec3) (lat lon maskingAngle : ℝ) : Option Bool :=
  (stationAngle Rs lat lon).map fun θα =>
    if θα.1 - maskingAngle > 0 then true else false

/-- A sample of an ECEF trajectory: position, velocity, time
(`step[0]`, `step[1]`, `step[2]` in the source). -/
abbrev Sample : Type := Vec3 × Vec3 × ℝ

/-- A pass record `(lat, lon, rise, set, duration, elevation, azimuth)`. -/
abbrev PassRecord : Type := ℝ × ℝ × ℝ × ℝ × ℝ × ℝ × ℝ

/-- The loop of `getStationPassTimes`, with loop state
`(seenPrev, currStartTime, θ, α, res)` threaded explicitly; `none` models an
exception from `isVisible` (station on the polar axis). -/
noncomputable def passLoop (station : ℝ × ℝ × ℝ) :
    List Sample → Bool × ℝ × ℝ × ℝ × List PassRecord → Option (List PassRecord)
  | [], st => some st.2.2.2.2
  | step :: rest, (seenPrev, currStartTime, θ, α, res) =>
    (isVisible step.1 station.1 station.2.1 station.2.2).bind fun vis =>
      if vis ∧ ¬seenPrev then
        (stationAngle step.1 station.1 station.2.1).bind fun θα =>
          passLoop station rest (true, step.2.2, θα.1, θα.2, res)
      else if ¬vis ∧ seenPrev then
        passLoop station rest
          (false, currStartTime, θ, α,
            res ++ [(station.1, station.2.1, currStartTime, step.2.2,
                     step.2.2 - currStartTime, θ, α)])
      else
        passLoop station rest (seenPrev, currStartTime, θ, α, res)

end Visibility

/-- Source `getStationPassTimes`: scan an ECEF trajectory for pass windows of
one station `(lat, lon, maskingAngle)`. -/
noncomputable def getStationPassTimes (ecefData : List Visibility.Sample)
    (station : ℝ × ℝ × ℝ) : Option (List Visibility.PassRecord) :=
  Visibility.passLoop station ecefData (false, 0, 0, 0, [])

/-! ## propogation/rk4.py -/

namespace RK4

/-- A trajectory sample `(R, V, t)`. -/
abbrev State : Type := Vec3 × Vec3 × ℝ

/-- Source `monopoleDiff`: point-mass gravitational acceleration. -/
noncomputable def monopoleDiff (r0 : ℝ) (R : Vec3) : Vec3 :=
  ⟨-(GM * R.x) / r0 ^ 3, -(GM * R.y) / r0 ^ 3, -(GM * R.z) / r0 ^ 3⟩

/-- Source `monopoleK`: the monopole k function, `0.5·h²` times the
acceleration. -/
noncomputable def monopoleK (R : Vec3) (h : ℝ) : Vec3 :=
  (0.5 * h ^ 2) • monopoleDiff (norm R) R

/-- Source `calculateRk2` (used for both the second and third sub-step
positions). -/
noncomputable def calculateRk2 (K1R V R : Vec3) (h : ℝ) : Vec3 :=
  ⟨R.x + h / 2 * V.x + K1R.x / 4,
   R.y + h / 2 * V.y + K1R.y / 4,
   R.z + h / 2 * V.z + K1R.z / 4⟩

/-- Source `calculateRk4` (the fourth sub-step position). -/
noncomputable def calculateRk4 (K3R V R : Vec3) (h : ℝ) : Vec3 :=
  ⟨R.x + h * V.x + K3R.x, R.y + h * V.y + K3R.y, R.z + h * V.z + K3R.z⟩

/-- Source `calculateP` of `rk4.py`. -/
noncomputable def calculateP (k1 k2 k3 : Vec3) : Vec3 :=
  ⟨1 / 3 * (k1.x + k2.x + k3.x), 1 / 3 * (k1.y + k2.y + k3.y),
   1 / 3 * (k1.z + k2.z + k3.z)⟩

/-- Source `calculateQ` of `rk4.py`. -/
noncomputable def calculateQ (k1 k2 k3 k4 : Vec3) : Vec3 :=
  ⟨1 / 3 * (k1.x + 2 * k2.x + 2 * k3.x + k4.x),
   1 / 3 * (k1.y + 2 * k2.y + 2 * k3.y + k4.y),
   1 / 3 * (k1.z + 2 * k2.z + 2 * k3.z + k4.z)⟩

/-- Source `kdδ`: the Kronecker delta at order 0. -/
def kdDelta (m : ℕ) : ℕ := if m = 0 then 1 else 0

/-- Source `denormaliseCoefficient`. -/
noncomputable def denormaliseCoefficient (c : ℝ) (n m : ℕ) : ℝ :=
  let num : ℝ := (Nat.factorial (n + m) : ℝ)
  let den : ℝ := (Nat.factorial (n - m) : ℝ) * (2 * n + 1) * (2 - kdDelta m)
  c / Real.sqrt (num / den)

/-- Source `j2diff`: monopole plus the degree-2 zonal correction. -/
noncomputable def j2diff (R : Vec3) (r0 c a : ℝ) : Vec3 :=
  ⟨-GM * R.x / r0 ^ 3 +
     1.5 * GM * (a ^ 2 / r0 ^ 5) * c * R.x * (1 - 5 * R.z ^ 2 / r0 ^ 2),
   -GM * R.y / r0 ^ 3 +
     1.5 * GM * (a ^ 2 / r0 ^ 5) * c * R.y * (1 - 5 * R.z ^ 2 / r0 ^ 2),
   -GM * R.z / r0 ^ 3 +
     1.5 * GM * (a ^ 2 / r0 ^ 5) * c * R.z * (3 - 5 * R.z ^ 2 / r0 ^ 2)⟩

/-- Source `j2k`: the J2 k function. -/
noncomputable def j2k (R : Vec3) (h : ℝ) : Vec3 :=
  let c := denormaliseCoefficient C20 2 0
  (0.5 * h ^ 2) • j2diff R (norm R) c AEGMA96

/-- Source `rk4PropogationStep`: one step of the RK4 scheme with a pluggable
k function. -/
noncomputable def rk4PropogationStep (R V : Vec3) (timestep : ℝ)
    (k : Vec3 → ℝ → Vec3) : Vec3 × Vec3 :=
  let k1 := k R timestep
  let RK2 := calculateRk2 k1 V R timestep
  let k2 := k RK2 timestep
  let RK3 := calculateRk2 k2 V R timestep
  let k3 := k RK3 timestep
  let RK4v := calculateRk4 k3 V R timestep
  let k4 := k RK4v timestep
  let P := calculateP k1 k2 k3
  let Q := calculateQ k1 k2 k3 k4
  (⟨R.x + timestep * V.x + P.x, R.y + timestep * V.y + P.y,
    R.z + timestep * V.z + P.z⟩,
   ⟨V.x + Q.x / timestep, V.y + Q.y / timestep, V.z + Q.z / timestep⟩)

/-- The `for step in range(steps)` loop shared by `rk4MonoPropogation`,
`rk4j2Propogation` (and, with an `Option`-valued step, `propogateOrbit`):
`i` counts the iterations already appended, so the sample produced by loop
iteration `step` carries time `baseTime + timestep*(step+1)`. -/
noncomputable def propLoop (stepF : Vec3 → Vec3 → Vec3 × Vec3)
    (timestep baseTime : ℝ) : ℕ → ℕ → Vec3 → Vec3 → List State
  | 0, _, _, _ => []
  | steps + 1, i, R, V =>
    let s := stepF R V
    (s.1, s.2, baseTime + timestep * (i + 1)) ::
      propLoop stepF timestep baseTime steps (i + 1) s.1 s.2

end RK4

/-- Source `rk4MonoPropogation`: RK4 trajectory with the monopole model. -/
noncomputable def rk4MonoPropogation (R V : Vec3) (timestep : ℝ) (steps : ℕ)
    (baseTime : ℝ) : List RK4.State :=
  (R, V, baseTime) ::
    RK4.propLoop (fun R' V' => RK4.rk4PropogationStep R' V' timestep RK4.monopoleK)
      timestep baseTime steps 0 R V

/-- Source `rk4j2Propogation`: RK4 trajectory with the J2 model. -/
noncomputable def rk4j2Propogation (R V : Vec3) (timestep : ℝ) (steps : ℕ)
    (baseTime : ℝ) : List RK4.State :=
  (R, V, baseTime) ::
    RK4.propLoop (fun R' V' => RK4.rk4PropogationStep R' V' timestep RK4.j2k)
      timestep baseTime steps 0 R V

/-! ## propogation/keplerianPropogation.py

The file's imports resolve the converters' `cart2kep` and `calculateGausVects`
(the only copies its names can denote); `normailisedAtan2` is the source's
spelling of `normalisedAtan2`. -/

namespace KeplerianProp

/-- Source `calculateEccentAnom`: mean anomaly advanced by `n·δt`, then the
Kepler solve (fuel-indexed, see `solveKepler`). -/
noncomputable def calculateEccentAnom (fuel : ℕ) (r : ℝ) (kep : KeplerianElements)
    (δt : ℝ) : Option ℝ :=
  let n := Real.sqrt (GM / kep.a ^ 3)
  let cosE0 := r * Real.cos kep.ν / kep.a + kep.e
  let sinE0 := r * Real.sin kep.ν / (kep.a * Real.sqrt (1 - kep.e ^ 2))
  let E0 := normalisedAtan2 sinE0 cosE0
  let M0 := E0 - kep.e * Real.sin E0
  let Mi := M0 + n * δt
  solveKepler fuel kep.e Mi

/-- Source `calculateNewPosition`. -/
noncomputable def calculateNewPosition (Ei : ℝ) (kep : KeplerianElements) : Vec3 :=
  let x := kep.a * (Real.cos Ei - kep.e)
  let y := kep.a * Real.sqrt (1 - kep.e ^ 2) * Real.sin Ei
  let PQ := Kep2Cart.calculateGausVects kep.Ω kep.ω kep.i
  (x • PQ.1) + (y • PQ.2)

/-- Source `calculateNewVelocity`. -/
noncomputable def calculateNewVelocity (Ei : ℝ) (kep : KeplerianElements) : Vec3 :=
  let r := kep.a * (1 - kep.e * Real.cos Ei)
  let xdot := -Real.sqrt (kep.a * GM) * Real.sin Ei / r
  let ydot := Real.sqrt (kep.a * GM) * Real.sqrt (1 - kep.e ^ 2) * Real.cos Ei / r
  let PQ := Kep2Cart.calculateGausVects kep.Ω kep.ω kep.i
  (xdot • PQ.1) + (ydot • PQ.2)

/-- Source `calculateOrbitStep`: one analytic two-body step. -/
noncomputable def calculateOrbitStep (fuel : ℕ) (R V : Vec3) (δt : ℝ) :
    Option (Vec3 × Vec3) :=
  let kep := cart2kep R V
  let r := Real.sqrt (R.x ^ 2 + R.y ^ 2 + R.z ^ 2)
  (calculateEccentAnom fuel r kep δt).map fun Ei =>
    (calculateNewPosition Ei kep, calculateNewVelocity Ei kep)

/-- The `for step in range(steps)` loop of `propogateOrbit`, in the `Option`
monad because each step contains a Kepler solve. -/
noncomputable def propOrbitLoop (fuel : ℕ) (δt baseTime : ℝ) :
    ℕ → ℕ → Vec3 → Vec3 → Option (List RK4.State)
  | 0, _, _, _ => some []
  | steps + 1, i, R, V =>
    (calculateOrbitStep fuel R V δt).bind fun s =>
      (propOrbitLoop fuel δt baseTime steps (i + 1) s.1 s.2).map
        ((s.1, s.2, baseTime + δt * (i + 1)) :: ·)

end KeplerianProp

/-- Source `propogateOrbit`: analytic Keplerian propagation, fuel-indexed
through the Kepler solver; `none` means some step's solve did not converge
within the fuel (the Python loop would still be running). -/
noncomputable def propogateOrbit (fuel : ℕ) (R V : Vec3) (δt : ℝ) (steps : ℕ)
    (baseTime : ℝ) : Option (List RK4.State) :=
  (KeplerianProp.propOrbitLoop fuel δt baseTime steps 0 R V).map ((R, V, baseTime) :: ·)

/-! ## Claim C2: Kepler solver postcondition and scheme -/

/-- Every value the solver loop returns satisfies the 1e-8 residual bound:
the loop exits only when the `while` condition fails. -/
theorem loop_residual_le {e M : ℝ} :
    ∀ fuel E0 E, SolveKepler.loop e M fuel E0 = some E →
      |SolveKepler.f E M e| ≤ 1e-8 := by
  intro fuel
  induction fuel with
  | zero =>
    intro E0 E hE
    unfold SolveKepler.loop at hE
    by_cases hc : |SolveKepler.f E0 M e| > 1e-8
    · simp [hc] at hE
    · simp only [hc, if_false] at hE
      obtain rfl : E0 = E := Option.some.inj hE
      exact le_of_not_lt hc
  | succ n ih =>
    intro E0 E hE
    unfold SolveKepler.loop at hE
    by_cases hc : |SolveKepler.f E0 M e| > 1e-8
    · simp only [hc, if_true] at hE
      exact ih _ _ hE
    · simp only [hc, if_false] at hE
      obtain rfl : E0 = E := Option.some.inj hE
      exact le_of_not_lt hc

/-- Claim C2 (confirmed, strengthened to all real `e`, `M`): whenever
`solveKepler` returns a value `E`, that `E` satisfies
`|E − e·sin E − M| ≤ 1e-8`; the initial guess is `π` when `e > 0.8` and `M`
otherwise; and each loop iteration is the Newton step
`E ← E − (E − e·sin E − M)/(1 − e·cos E)`, taken exactly when the residual is
still above the tolerance. -/
theorem solveKepler_spec :
    (∀ fuel e M E, solveKepler fuel e M = some E →
        |E - e * Real.sin E - M| ≤ 1e-8) ∧
    (∀ fuel e M, e > 0.8 → solveKepler fuel e M = SolveKepler.loop e M fuel Real.pi) ∧
    (∀ fuel e M, ¬e > 0.8 → solveKepler fuel e M = SolveKepler.loop e M fuel M) ∧
    (∀ fuel e M E, SolveKepler.loop e M (fuel + 1) E =
        if |E - e * Real.sin E - M| > 1e-8 then
          SolveKepler.loop e M fuel (E - (E - e * Real.sin E - M) / (1 - e * Real.cos E))
        else some E) := by
  refine ⟨?_, ?_, ?_, ?_⟩
  · intro fuel e M E hE
    have h := loop_residual_le (e := e) (M := M) fuel _ E hE
    simpa [SolveKepler.f] using h
  · intro fuel e M he
    unfold solveKepler
    rw [if_pos he]
  · intro fuel e M he
    unfold solveKepler
    rw [if_neg he]
  · intro fuel e M E
    have hstep : SolveKepler.loop e M (fuel + 1) E =
        if |SolveKepler.f E M e| > 1e-8 then
          SolveKepler.loop e M fuel (SolveKepler.newtonStep e M E)
        else some E := rfl
    rw [hstep]
    simp only [SolveKepler.f, SolveKepler.newtonStep]

/-- Witness for C2: at `e = 0`, `M = 0` the guess `E₀ = M = 0` already has
zero residual, so the solver returns `some 0` with no fuel, and the returned
value satisfies the bound. -/
theorem solveKepler_spec_witness :
    solveKepler 0 0 0 = some 0 ∧ |(0 : ℝ) - 0 * Real.sin 0 - 0| ≤ 1e-8 := by
  have h : solveKepler 0 0 0 = some 0 := by
    unfold solveKepler SolveKepler.loop SolveKepler.f
    norm_num
  exact ⟨h, solveKepler_spec.1 0 0 0 0 h⟩

/-! ## Claim C8: the RK4 step computes the spec's scheme -/

/-- Claim C8 (confirmed, for every real step size): one RK4 step with the
monopole model computes exactly the spec scheme: with
`kᵢ = 0.5h²·(−μ/|Rᵢ|³)·Rᵢ` evaluated at `R`, `R + (h/2)V + k1/4`,
`R + (h/2)V + k2/4` and `R + hV + k3`, the new position is
`R + hV + (k1+k2+k3)/3` and the new velocity `V + (k1+2k2+2k3+k4)/(3h)`. -/
theorem rk4PropogationStep_monopole_spec (R V : Vec3) (h : ℝ) :
    RK4.rk4PropogationStep R V h RK4.monopoleK =
      (fun accel : Vec3 → Vec3 =>
        let k1 := accel R
        let k2 := accel (R + (h / 2) • V + k1 / (4 : ℝ))
        let k3 := accel (R + (h / 2) • V + k2 / (4 : ℝ))
        let k4 := accel (R + h • V + k3)
        (R + h • V + (k1 + k2 + k3) / (3 : ℝ),
         V + (k1 + (2 : ℝ) • k2 + (2 : ℝ) • k3 + k4) / (3 * h)))
      (fun Ri => (0.5 * h ^ 2) • ((-GM / norm Ri ^ 3) • Ri)) := by
  have hk : ∀ Ri : Vec3, RK4.monopoleK Ri h =
      (0.5 * h ^ 2) • ((-GM / norm Ri ^ 3) • Ri) := by
    intro Ri
    apply Vec3.ext_iff.mpr
    refine ⟨?_, ?_, ?_⟩ <;>
      simp only [RK4.monopoleK, RK4.monopoleDiff, Vec3.smul_def] <;> ring
  have h2 : ∀ K : Vec3, RK4.calculateRk2 K V R h = R + (h / 2) • V + K / (4 : ℝ) := by
    intro K
    apply Vec3.ext_iff.mpr
    refine ⟨?_, ?_, ?_⟩ <;>
      simp only [RK4.calculateRk2, Vec3.add_def, Vec3.smul_def, Vec3.div_def]
  have h4 : ∀ K : Vec3, RK4.calculateRk4 K V R h = R + h • V + K := by
    intro K
    apply Vec3.ext_iff.mpr
    refine ⟨?_, ?_, ?_⟩ <;>
      simp only [RK4.calculateRk4, Vec3.add_def, Vec3.smul_def]
  show (let k1 := RK4.monopoleK R h
        let RK2 := RK4.calculateRk2 k1 V R h
        let k2 := RK4.monopoleK RK2 h
        let RK3 := RK4.calculateRk2 k2 V R h
        let k3 := RK4.monopoleK RK3 h
        let RK4v := RK4.calculateRk4 k3 V R h
        let k4 := RK4.monopoleK RK4v h
        let P := RK4.calculateP k1 k2 k3
        let Q := RK4.calculateQ k1 k2 k3 k4
        ((⟨R.x + h * V.x + P.x, R.y + h * V.y + P.y, R.z + h * V.z + P.z⟩ : Vec3),
         (⟨V.x + Q.x / h, V.y + Q.y / h, V.z + Q.z / h⟩ : Vec3))) = _
  simp only [hk, h2, h4]
  apply Prod.ext <;> apply Vec3.ext_iff.mpr <;> refine ⟨?_, ?_, ?_⟩ <;>
    simp only [RK4.calculateP, RK4.calculateQ, Vec3.add_def, Vec3.smul_def,
      Vec3.div_def] <;> ring

/-! ## Claim C9: geodetic conversion fails on the polar axis -/

/-- Claim C9 (confirmed): for a position exactly on the polar axis
(`x = y = 0`, `z ≠ 0`) the latitude formula divides `z` by `√(x²+y²) = 0`,
so `calculateLatLon` (and with it `ecef2latlong`) takes the error branch and
returns no latitude at all — in particular never `±90°`. -/
theorem calculateLatLon_polar_axis (z : ℝ) (_hz : z ≠ 0) :
    calculateLatLon ⟨0, 0, z⟩ = none ∧ ecef2latlong ⟨0, 0, z⟩ = none := by
  have h : calculateLatLon ⟨0, 0, z⟩ = none := by
    unfold calculateLatLon
    norm_num
  exact ⟨h, by unfold ecef2latlong; rw [h]; rfl⟩

/-- Witness for C9 at `z = 1`. -/
theorem calculateLatLon_polar_axis_witness :
    calculateLatLon ⟨0, 0, 1⟩ = none ∧ ecef2latlong ⟨0, 0, 1⟩ = none :=
  calculateLatLon_polar_axis 1 (by norm_num)

/-! ## Claim C7: trajectory structure of the three propagators -/

theorem propLoop_length (stepF : Vec3 → Vec3 → Vec3 × Vec3) (ts t0 : ℝ) :
    ∀ steps i R V, (RK4.propLoop stepF ts t0 steps i R V).length = steps := by
  intro steps
  induction steps with
  | zero => intro i R V; rfl
  | succ n ih =>
    intro i R V
    simp only [RK4.propLoop, List.length_cons]
    rw [ih]

theorem propLoop_get (stepF : Vec3 → Vec3 → Vec3 × Vec3) (ts t0 : ℝ) :
    ∀ steps i R V j (hj : j < (RK4.propLoop stepF ts t0 steps i R V).length),
      ((RK4.propLoop stepF ts t0 steps i R V).get ⟨j, hj⟩).2.2 =
        t0 + ts * (i + j + 1) := by
  intro steps
  induction steps with
  | zero =>
    intro i R V j hj
    simp [RK4.propLoop] at hj
  | succ n ih =>
    intro i R V j hj
    rcases j with _ | j
    · simp only [RK4.propLoop, List.get]
      push_cast
      ring
    · have hj' : j < (RK4.propLoop stepF ts t0 n (i + 1)
          (stepF R V).1 (stepF R V).2).length := by
        have h0 := hj
        simp only [RK4.propLoop, List.length_cons] at h0
        omega
      have h := ih (i + 1) (stepF R V).1 (stepF R V).2 j hj'
      simp only [RK4.propLoop, List.get]
      rw [h]
      push_cast
      ring

/-- Structure shared by the trajectory lists built by the
`for step in range(steps)` loops: length `steps + 1`, unchanged initial
sample, sample `j` at time `t0 + ts·j`, and strictly increasing times for a
positive step. -/
theorem consPropLoop_props (stepF : Vec3 → Vec3 → Vec3 × Vec3) (R V : Vec3)
    (ts t0 : ℝ) (steps : ℕ) :
    ((R, V, t0) :: RK4.propLoop stepF ts t0 steps 0 R V).length = steps + 1 ∧
    ((R, V, t0) :: RK4.propLoop stepF ts t0 steps 0 R V).head? = some (R, V, t0) ∧
    (∀ j (hj : j < ((R, V, t0) :: RK4.propLoop stepF ts t0 steps 0 R V).length),
      (((R, V, t0) :: RK4.propLoop stepF ts t0 steps 0 R V).get ⟨j, hj⟩).2.2 =
        t0 + ts * j) := by
  refine ⟨by simp [propLoop_length], rfl, ?_⟩
  intro j hj
  rcases j with _ | j
  · show t0 = t0 + ts * (0 : ℕ)
    norm_num
  · have hj' : j < (RK4.propLoop stepF ts t0 steps 0 R V).length := by
      simpa using Nat.lt_of_succ_lt_succ hj
    have h := propLoop_get stepF ts t0 steps 0 R V j hj'
    show ((RK4.propLoop stepF ts t0 steps 0 R V).get ⟨j, hj'⟩).2.2 = _
    rw [h]
    push_cast
    ring

theorem propOrbitLoop_props (fuel : ℕ) (δt t0 : ℝ) :
    ∀ steps i R V l,
      KeplerianProp.propOrbitLoop fuel δt t0 steps i R V = some l →
      l.length = steps ∧
        ∀ j (hj : j < l.length), (l.get ⟨j, hj⟩).2.2 = t0 + δt * (i + j + 1) := by
  intro steps
  induction steps with
  | zero =>
    intro i R V l hl
    obtain rfl : ([] : List RK4.State) = l := Option.some.inj hl
    exact ⟨rfl, fun j hj => by simp at hj⟩
  | succ n ih =>
    intro i R V l hl
    simp only [KeplerianProp.propOrbitLoop] at hl
    rcases hstep : KeplerianProp.calculateOrbitStep fuel R V δt with _ | s
    · rw [hstep] at hl; exact absurd hl (by simp)
    · rw [hstep, Option.some_bind] at hl
      rcases hrec : KeplerianProp.propOrbitLoop fuel δt t0 n (i + 1) s.1 s.2 with _ | l'
      · rw [hrec] at hl; exact absurd hl (by simp)
      · rw [hrec, Option.map_some'] at hl
        obtain rfl : (s.1, s.2, t0 + δt * (i + 1)) :: l' = l := Option.some.inj hl
        obtain ⟨hlen, htime⟩ := ih (i + 1) s.1 s.2 l' hrec
        refine ⟨by simp [hlen], ?_⟩
        intro j hj
        rcases j with _ | j
        · simp only [List.get]
          push_cast
          ring
        · have hj' : j < l'.length := by
            simpa using Nat.lt_of_succ_lt_succ hj
          have h := htime j hj'
          simp only [List.get]
          rw [h]
          push_cast
          ring

/-- Claim C7 (confirmed): each propagator returns a trajectory of exactly
`steps + 1` samples whose first element is the initial `(R, V, t0)` unchanged
and whose `j`-th sample carries time `t0 + j·Δt`, so for `Δt > 0` the time
sequence is strictly increasing.  The Keplerian propagator contains the
unbounded Kepler solve, so its part is stated for every run that returns
(fuel-indexed, see `solveKepler`). -/
theorem propagators_trajectory_structure :
    (∀ R V ts steps t0,
      (rk4MonoPropogation R V ts steps t0).length = steps + 1 ∧
      (rk4MonoPropogation R V ts steps t0).head? = some (R, V, t0) ∧
      (∀ j (hj : j < (rk4MonoPropogation R V ts steps t0).length),
        ((rk4MonoPropogation R V ts steps t0).get ⟨j, hj⟩).2.2 = t0 + ts * j) ∧
      (0 < ts → ∀ j (hj : j < (rk4MonoPropogation R V ts steps t0).length)
        (hj' : j + 1 < (rk4MonoPropogation R V ts steps t0).length),
        ((rk4MonoPropogation R V ts steps t0).get ⟨j, hj⟩).2.2 <
          ((rk4MonoPropogation R V ts steps t0).get ⟨j + 1, hj'⟩).2.2)) ∧
    (∀ R V ts steps t0,
      (rk4j2Propogation R V ts steps t0).length = steps + 1 ∧
      (rk4j2Propogation R V ts steps t0).head? = some (R, V, t0) ∧
      (∀ j (hj : j < (rk4j2Propogation R V ts steps t0).length),
        ((rk4j2Propogation R V ts steps t0).get ⟨j, hj⟩).2.2 = t0 + ts * j) ∧
      (0 < ts → ∀ j (hj : j < (rk4j2Propogation R V ts steps t0).length)
        (hj' : j + 1 < (rk4j2Propogation R V ts steps t0).length),
        ((rk4j2Propogation R V ts steps t0).get ⟨j, hj⟩).2.2 <
          ((rk4j2Propogation R V ts steps t0).get ⟨j + 1, hj'⟩).2.2)) ∧
    (∀ fuel R V δt steps t0 tr, propogateOrbit fuel R V δt steps t0 = some tr →
      tr.length = steps + 1 ∧
      tr.head? = some (R, V, t0) ∧
      (∀ j (hj : j < tr.length), (tr.get ⟨j, hj⟩).2.2 = t0 + δt * j) ∧
      (0 < δt → ∀ j (hj : j < tr.length) (hj' : j + 1 < tr.length),
        (tr.get ⟨j, hj⟩).2.2 < (tr.get ⟨j + 1, hj'⟩).2.2)) := by
  have hmain : ∀ (stepF : Vec3 → Vec3 → Vec3 × Vec3) (R V : Vec3) (ts t0 : ℝ)
      (steps : ℕ),
      let l := (R, V, t0) :: RK4.propLoop stepF ts t0 steps 0 R V
      l.length = steps + 1 ∧ l.head? = some (R, V, t0) ∧
      (∀ j (hj : j < l.length), (l.get ⟨j, hj⟩).2.2 = t0 + ts * j) ∧
      (0 < ts → ∀ j (hj : j < l.length) (hj' : j + 1 < l.length),
        (l.get ⟨j, hj⟩).2.2 < (l.get ⟨j + 1, hj'⟩).2.2) := by
    intro stepF R V ts t0 steps
    obtain ⟨hlen, hhead, htime⟩ := consPropLoop_props stepF R V ts t0 steps
    refine ⟨hlen, hhead, htime, ?_⟩
    intro hts j hj hj'
    rw [htime j hj, htime (j + 1) hj']
    have : (j : ℝ) < ((j : ℕ) + 1 : ℕ) := by push_cast; linarith
    push_cast
    nlinarith
  refine ⟨fun R V ts steps t0 => hmain _ R V ts t0 steps,
          fun R V ts steps t0 => hmain _ R V ts t0 steps, ?_⟩
  intro fuel R V δt steps t0 tr htr
  unfold propogateOrbit at htr
  rcases hloop : KeplerianProp.propOrbitLoop fuel δt t0 steps 0 R V with _ | l
  · rw [hloop] at htr; exact absurd htr (by simp)
  · rw [hloop] at htr
    obtain rfl : (R, V, t0) :: l = tr := Option.some.inj htr
    obtain ⟨hlen, htime⟩ := propOrbitLoop_props fuel δt t0 steps 0 R V l hloop
    have htimes : ∀ j (hj : j < ((R, V, t0) :: l).length),
        (((R, V, t0) :: l).get ⟨j, hj⟩).2.2 = t0 + δt * j := by
      intro j hj
      rcases j with _ | j
      · show t0 = t0 + δt * (0 : ℕ)
        norm_num
      · have hj' : j < l.length := by simpa using Nat.lt_of_succ_lt_succ hj
        have h := htime j hj'
        show (l.get ⟨j, hj'⟩).2.2 = _
        rw [h]
        push_cast
        ring
    refine ⟨by simp [hlen], rfl, htimes, ?_⟩
    intro hδt j hj hj'
    rw [htimes j hj, htimes (j + 1) hj']
    push_cast
    nlinarith

/-- Witness for C7: concrete runs discharging each hypothesis — the RK4
monotonicity parts at `ts = 1 > 0`, and the Keplerian part on a
zero-step run, which returns its input trajectory. -/
theorem propagators_trajectory_structure_witness :
    (rk4MonoPropogation ⟨1, 0, 0⟩ ⟨0, 1, 0⟩ 1 1 0).length = 2 ∧
    (rk4j2Propogation ⟨1, 0, 0⟩ ⟨0, 1, 0⟩ 1 1 0).length = 2 ∧
    propogateOrbit 0 ⟨1, 0, 0⟩ ⟨0, 1, 0⟩ 1 0 0 = some [(⟨1, 0, 0⟩, ⟨0, 1, 0⟩, 0)] ∧
    [((⟨1, 0, 0⟩ : Vec3), (⟨0, 1, 0⟩ : Vec3), (0 : ℝ))].length = 0 + 1 := by
  have hkep : propogateOrbit 0 ⟨1, 0, 0⟩ ⟨0, 1, 0⟩ 1 0 0 =
      some [(⟨1, 0, 0⟩, ⟨0, 1, 0⟩, 0)] := by
    unfold propogateOrbit KeplerianProp.propOrbitLoop
    rfl
  refine ⟨(propagators_trajectory_structure.1 ⟨1, 0, 0⟩ ⟨0, 1, 0⟩ 1 1 0).1,
          (propagators_trajectory_structure.2.1 ⟨1, 0, 0⟩ ⟨0, 1, 0⟩ 1 1 0).1,
          hkep,
          (propagators_trajectory_structure.2.2 0 ⟨1, 0, 0⟩ ⟨0, 1, 0⟩ 1 0 0 _ hkep).1⟩

/-! ## Claim C4: orthonormal triads -/

theorem dot_self_eq_norm_sq (v : Vec3) : dot v v = norm v ^ 2 := by
  rw [norm_sq]
  simp [dot]
  ring

theorem norm_eq_one_of_dot {v : Vec3} (h : dot v v = 1) : norm v = 1 := by
  have hx : v.x ^ 2 + v.y ^ 2 + v.z ^ 2 = 1 := by
    rw [← h]; simp [dot]; ring
  unfold norm
  rw [hx, Real.sqrt_one]

theorem cross_eq_zero_of_left_zero (V : Vec3) : cross ⟨0, 0, 0⟩ V = ⟨0, 0, 0⟩ := by
  simp [cross]

theorem unitVector_norm {v : Vec3} (hv : v ≠ ⟨0, 0, 0⟩) : norm (v / norm v) = 1 := by
  have hn : 0 < norm v := norm_pos_of_ne hv
  apply norm_eq_one_of_dot
  show v.x / norm v * (v.x / norm v) + v.y / norm v * (v.y / norm v) +
    v.z / norm v * (v.z / norm v) = 1
  have h2 : v.x * v.x + v.y * v.y + v.z * v.z = norm v * norm v := by
    have := norm_sq v
    nlinarith [this]
  field_simp
  linarith [h2]

theorem dot_div_div (a b : Vec3) (c d : ℝ) : dot (a / c) (b / d) = dot a b / (c * d) := by
  simp [dot, Vec3.div_def]
  ring

/-- Claim C4 is false as stated: for `R = (1,0,0)`, `V = (0,1,0)` the code's
triad is `H = (1,0,0)`, `C = (0,0,1)`, `L = C×H = (0,1,0)`, while
`H×C = (0,−1,0) ≠ L`. -/
theorem calculateBasis_HxC_ne_L :
    cross (Differences.calculateBasis ⟨1, 0, 0⟩ ⟨0, 1, 0⟩).1
        (Differences.calculateBasis ⟨1, 0, 0⟩ ⟨0, 1, 0⟩).2.1 ≠
      (Differences.calculateBasis ⟨1, 0, 0⟩ ⟨0, 1, 0⟩).2.2 := by
  have hnR : norm (⟨1, 0, 0⟩ : Vec3) = 1 := by
    unfold norm; norm_num
  have hcross : cross ⟨1, 0, 0⟩ ⟨0, 1, 0⟩ = (⟨0, 0, 1⟩ : Vec3) := by
    simp [cross]
  have hnC : norm (⟨0, 0, 1⟩ : Vec3) = 1 := by
    unfold norm; norm_num
  have hHval : Differences.calculateH ⟨1, 0, 0⟩ = (⟨1, 0, 0⟩ : Vec3) := by
    unfold Differences.calculateH
    rw [hnR]
    apply Vec3.ext_iff.mpr
    norm_num [Vec3.div_def]
  have hCval : Differences.calculateC ⟨1, 0, 0⟩ ⟨0, 1, 0⟩ = (⟨0, 0, 1⟩ : Vec3) := by
    unfold Differences.calculateC
    rw [hcross, hnC]
    apply Vec3.ext_iff.mpr
    norm_num [Vec3.div_def]
  have hB : Differences.calculateBasis ⟨1, 0, 0⟩ ⟨0, 1, 0⟩ =
      ((⟨1, 0, 0⟩ : Vec3), (⟨0, 0, 1⟩ : Vec3), cross ⟨0, 0, 1⟩ ⟨1, 0, 0⟩) := by
    unfold Differences.calculateBasis Differences.calculateL
    rw [hHval, hCval]
  intro hcontra
  rw [hB] at hcontra
  have hy := congrArg Vec3.y hcontra
  simp [cross] at hy
  norm_num at hy

/-- Claim C4 (corrected): every basis the program constructs is an
orthonormal triad, but the HCL triad satisfies `C×H = L` (the source's
`calculateL(C, H) = np.cross(C, H)`), not `H×C = L`; the ENU triad does
satisfy `E×N = U`. -/
theorem bases_orthonormal :
    (∀ R V : Vec3, cross R V ≠ ⟨0, 0, 0⟩ →
      norm (Differences.calculateBasis R V).1 = 1 ∧
      norm (Differences.calculateBasis R V).2.1 = 1 ∧
      norm (Differences.calculateBasis R V).2.2 = 1 ∧
      dot (Differences.calculateBasis R V).1 (Differences.calculateBasis R V).2.1 = 0 ∧
      dot (Differences.calculateBasis R V).1 (Differences.calculateBasis R V).2.2 = 0 ∧
      dot (Differences.calculateBasis R V).2.1 (Differences.calculateBasis R V).2.2 = 0 ∧
      cross (Differences.calculateBasis R V).2.1 (Differences.calculateBasis R V).1 =
        (Differences.calculateBasis R V).2.2) ∧
    (∀ lat lon : ℝ,
      norm (calculateENUBasis lat lon).1 = 1 ∧
      norm (calculateENUBasis lat lon).2.1 = 1 ∧
      norm (calculateENUBasis lat lon).2.2 = 1 ∧
      dot (calculateENUBasis lat lon).1 (calculateENUBasis lat lon).2.1 = 0 ∧
      dot (calculateENUBasis lat lon).1 (calculateENUBasis lat lon).2.2 = 0 ∧
      dot (calculateENUBasis lat lon).2.1 (calculateENUBasis lat lon).2.2 = 0 ∧
      cross (calculateENUBasis lat lon).1 (calculateENUBasis lat lon).2.1 =
        (calculateENUBasis lat lon).2.2) := by
  constructor
  · intro R V hcv
    have hB : Differences.calculateBasis R V =
        (Differences.calculateH R, Differences.calculateC R V,
         Differences.calculateL (Differences.calculateC R V)
           (Differences.calculateH R)) := rfl
    rw [hB]
    have hR : R ≠ ⟨0, 0, 0⟩ := by
      intro h0
      rw [h0] at hcv
      exact hcv (cross_eq_zero_of_left_zero V)
    have hH : norm (Differences.calculateH R) = 1 := unitVector_norm hR
    have hC : norm (Differences.calculateC R V) = 1 := unitVector_norm hcv
    have hHC : dot (Differences.calculateH R) (Differences.calculateC R V) = 0 := by
      unfold Differences.calculateH Differences.calculateC
      rw [dot_div_div]
      have h0 : dot R (cross R V) = 0 := by simp [dot, cross]; ring
      rw [h0, zero_div]
    have hdH : dot (Differences.calculateH R) (Differences.calculateH R) = 1 := by
      rw [dot_self_eq_norm_sq, hH]; norm_num
    have hdC : dot (Differences.calculateC R V) (Differences.calculateC R V) = 1 := by
      rw [dot_self_eq_norm_sq, hC]; norm_num
    have hLdot : dot (Differences.calculateL (Differences.calculateC R V)
        (Differences.calculateH R)) (Differences.calculateL
        (Differences.calculateC R V) (Differences.calculateH R)) = 1 := by
      unfold Differences.calculateL
      have hid : ∀ a b : Vec3, dot (cross a b) (cross a b) =
          dot a a * dot b b - dot a b ^ 2 := by
        intro a b; simp [dot, cross]; ring
      have hsymm : dot (Differences.calculateC R V) (Differences.calculateH R) = 0 := by
        have hcomm : ∀ a b : Vec3, dot a b = dot b a := by intro a b; simp [dot]; ring
        rw [hcomm]; exact hHC
      rw [hid, hdC, hdH, hsymm]
      norm_num
    refine ⟨hH, hC, norm_eq_one_of_dot hLdot, hHC, ?_, ?_, rfl⟩
    · unfold Differences.calculateL
      simp [dot, cross]; ring
    · unfold Differences.calculateL
      simp [dot, cross]; ring
  · intro lat lon
    refine ⟨?_, ?_, ?_, ?_, ?_, ?_, ?_⟩
    · apply norm_eq_one_of_dot
      simp [calculateENUBasis, LatLong2ENU.calculateE, dot]
      linear_combination Real.sin_sq_add_cos_sq (radians lon)
    · apply norm_eq_one_of_dot
      simp [calculateENUBasis, LatLong2ENU.calculateN, dot]
      linear_combination Real.sin_sq_add_cos_sq (radians lat) +
        Real.sin_sq_add_cos_sq (radians lon) * Real.sin (radians lat) ^ 2
    · apply norm_eq_one_of_dot
      simp [calculateENUBasis, LatLong2ENU.calculateU, dot]
      linear_combination Real.sin_sq_add_cos_sq (radians lat) +
        Real.sin_sq_add_cos_sq (radians lon) * Real.cos (radians lat) ^ 2
    · simp [calculateENUBasis, LatLong2ENU.calculateE, LatLong2ENU.calculateN, dot]
      ring
    · simp [calculateENUBasis, LatLong2ENU.calculateE, LatLong2ENU.calculateU, dot]
      ring
    · simp [calculateENUBasis, LatLong2ENU.calculateN, LatLong2ENU.calculateU, dot]
      linear_combination (-(Real.sin (radians lat) * Real.cos (radians lat))) *
        Real.sin_sq_add_cos_sq (radians lon)
    · simp only [calculateENUBasis, LatLong2ENU.calculateE, LatLong2ENU.calculateN,
        LatLong2ENU.calculateU, cross]
      apply Vec3.ext_iff.mpr
      refine ⟨by ring, by ring, ?_⟩
      show -Real.sin (radians lon) * (-Real.sin (radians lon) * Real.sin (radians lat)) -
          Real.cos (radians lon) * (-Real.cos (radians lon) * Real.sin (radians lat)) =
        Real.sin (radians lat)
      linear_combination Real.sin (radians lat) * Real.sin_sq_add_cos_sq (radians lon)

/-- Witness for the corrected C4 at `R = (1,0,0)`, `V = (0,1,0)`. -/
theorem bases_orthonormal_witness :
    norm (Differences.calculateBasis ⟨1, 0, 0⟩ ⟨0, 1, 0⟩).1 = 1 ∧
    cross (Differences.calculateBasis ⟨1, 0, 0⟩ ⟨0, 1, 0⟩).2.1
      (Differences.calculateBasis ⟨1, 0, 0⟩ ⟨0, 1, 0⟩).1 =
      (Differences.calculateBasis ⟨1, 0, 0⟩ ⟨0, 1, 0⟩).2.2 := by
  have hcv : cross ⟨1, 0, 0⟩ ⟨0, 1, 0⟩ ≠ (⟨0, 0, 0⟩ : Vec3) := by
    intro h
    have hz := congrArg Vec3.z h
    simp [cross] at hz
  obtain ⟨h1, _, _, _, _, _, h7⟩ := bases_orthonormal.1 ⟨1, 0, 0⟩ ⟨0, 1, 0⟩ hcv
  exact ⟨h1, h7⟩

/-! ## Claim C5: visibility at the mask boundary -/

/-- Claim C5 (confirmed): whenever the elevation/azimuth pair `(θ, α)` the
code computes is defined, `isVisible` returns `true` exactly when
`θ − maskingAngle > 0`; in particular it returns `false` when the elevation
equals the masking angle. -/
theorem isVisible_iff_elevation (Rs : Vec3) (lat lon mask θ α : ℝ)
    (hθα : Visibility.stationAngle Rs lat lon = some (θ, α)) :
    (Visibility.isVisible Rs lat lon mask = some true ↔ θ - mask > 0) ∧
    (θ = mask → Visibility.isVisible Rs lat lon mask = some false) := by
  have hvis : Visibility.isVisible Rs lat lon mask =
      some (if θ - mask > 0 then true else false) := by
    unfold Visibility.isVisible
    rw [hθα, Option.map_some']
  constructor
  · constructor
    · intro h
      rw [hvis] at h
      by_contra hneg
      rw [if_neg hneg] at h
      exact Bool.false_ne_true (Option.some.inj h)
    · intro h
      rw [hvis, if_pos h]
  · intro h
    rw [hvis, if_neg (by rw [h]; simp)]

theorem latLon2ecef_zero : Visibility.latLon2ecef 0 0 = ⟨EARTHRADIUS, 0, 0⟩ := by
  unfold Visibility.latLon2ecef LatLong2ENU.calculateU radians
  apply Vec3.ext_iff.mpr
  norm_num [Vec3.smul_def]

theorem normalisedAtan2_zero_of_pos {x : ℝ} (hx : 0 < x) : normalisedAtan2 0 x = 0 := by
  have harg : atan2 0 x = 0 := by
    unfold atan2
    exact Complex.arg_eq_zero_iff.mpr ⟨le_of_lt hx, rfl⟩
  unfold normalisedAtan2
  rw [harg]
  norm_num

theorem normalisedAtan2_zero_zero : normalisedAtan2 0 0 = 0 := by
  have harg : atan2 0 0 = 0 := by
    unfold atan2
    have h0 : (⟨0, 0⟩ : ℂ) = 0 := rfl
    rw [h0, Complex.arg_zero]
  unfold normalisedAtan2
  rw [harg]
  norm_num

theorem degrees_zero : degrees 0 = 0 := by
  unfold degrees
  ring

theorem calculateLatLon_equator :
    calculateLatLon ⟨EARTHRADIUS, 0, 0⟩ = some (0, 0) := by
  have hER : (0 : ℝ) < EARTHRADIUS := EARTHRADIUS_pos
  have hsq : Real.sqrt ((EARTHRADIUS : ℝ) ^ 2 + 0 ^ 2) = EARTHRADIUS := by
    rw [show (EARTHRADIUS : ℝ) ^ 2 + 0 ^ 2 = EARTHRADIUS ^ 2 by ring]
    exact Real.sqrt_sq hER.le
  simp only [calculateLatLon, hsq]
  rw [if_neg (ne_of_gt hER)]
  rw [normalisedAtan2_zero_of_pos hER, degrees_zero, zero_div, Real.arctan_zero,
    degrees_zero]
  norm_num

theorem enuBasis_zero :
    calculateENUBasis 0 0 =
      ((⟨0, 1, 0⟩ : Vec3), (⟨0, 0, 1⟩ : Vec3), (⟨1, 0, 0⟩ : Vec3)) := by
  have h0 : radians 0 = 0 := by unfold radians; ring
  unfold calculateENUBasis LatLong2ENU.calculateE LatLong2ENU.calculateN
    LatLong2ENU.calculateU
  rw [h0]
  refine Prod.ext_iff.mpr ⟨?_, Prod.ext_iff.mpr ⟨?_, ?_⟩⟩ <;>
    apply Vec3.ext_iff.mpr <;> norm_num

theorem getBasis_equator :
    Visibility.getBasis ⟨EARTHRADIUS, 0, 0⟩ =
      some ((⟨0, 1, 0⟩ : Vec3), (⟨0, 0, 1⟩ : Vec3), (⟨1, 0, 0⟩ : Vec3)) := by
  unfold Visibility.getBasis ecef2latlong
  rw [calculateLatLon_equator]
  simp only [Option.map_some']
  rw [enuBasis_zero]

theorem stationAngle_up :
    Visibility.stationAngle ⟨2 * EARTHRADIUS, 0, 0⟩ 0 0 = some (90, 0) := by
  have hER : (0 : ℝ) < EARTHRADIUS := EARTHRADIUS_pos
  have hrss : (⟨2 * EARTHRADIUS, 0, 0⟩ : Vec3) - ⟨EARTHRADIUS, 0, 0⟩ =
      (⟨EARTHRADIUS, 0, 0⟩ : Vec3) := by
    apply Vec3.ext_iff.mpr
    refine ⟨?_, ?_, ?_⟩ <;> (simp [Vec3.sub_def]; try ring_nf)
  have hnorm : norm ⟨EARTHRADIUS, 0, 0⟩ = EARTHRADIUS := by
    unfold norm
    rw [show (EARTHRADIUS : ℝ) ^ 2 + 0 ^ 2 + 0 ^ 2 = EARTHRADIUS ^ 2 by ring]
    exact Real.sqrt_sq hER.le
  simp only [Visibility.stationAngle, Visibility.getS2TSVector, latLon2ecef_zero,
    hrss, hnorm, getBasis_equator, Option.map_some']
  have he : dot ((⟨EARTHRADIUS, 0, 0⟩ : Vec3) / EARTHRADIUS) ⟨0, 1, 0⟩ = 0 := by
    simp [dot, Vec3.div_def]
  have hn : dot ((⟨EARTHRADIUS, 0, 0⟩ : Vec3) / EARTHRADIUS) ⟨0, 0, 1⟩ = 0 := by
    simp [dot, Vec3.div_def]
  have hu : dot ((⟨EARTHRADIUS, 0, 0⟩ : Vec3) / EARTHRADIUS) ⟨1, 0, 0⟩ = 1 := by
    simp [dot, Vec3.div_def]
    exact div_self (ne_of_gt hER)
  rw [he, hn, hu]
  unfold Visibility.calculateAngle
  rw [Real.arcsin_one, normalisedAtan2_zero_zero, degrees_zero]
  have h90 : degrees (Real.pi / 2) = 90 := by
    unfold degrees
    field_simp
    ring
  rw [h90]

theorem stationAngle_down :
    Visibility.stationAngle ⟨-(2 * EARTHRADIUS), 0, 0⟩ 0 0 = some (-90, 0) := by
  have hER : (0 : ℝ) < EARTHRADIUS := EARTHRADIUS_pos
  have hrss : (⟨-(2 * EARTHRADIUS), 0, 0⟩ : Vec3) - ⟨EARTHRADIUS, 0, 0⟩ =
      (⟨-(3 * EARTHRADIUS), 0, 0⟩ : Vec3) := by
    apply Vec3.ext_iff.mpr
    refine ⟨?_, ?_, ?_⟩ <;> (simp [Vec3.sub_def]; try ring_nf)
  have hnorm : norm ⟨-(3 * EARTHRADIUS), 0, 0⟩ = 3 * EARTHRADIUS := by
    unfold norm
    rw [show (-(3 * EARTHRADIUS) : ℝ) ^ 2 + 0 ^ 2 + 0 ^ 2 = (3 * EARTHRADIUS) ^ 2 by ring]
    exact Real.sqrt_sq (by linarith)
  simp only [Visibility.stationAngle, Visibility.getS2TSVector, latLon2ecef_zero,
    hrss, hnorm, getBasis_equator, Option.map_some']
  have he : dot ((⟨-(3 * EARTHRADIUS), 0, 0⟩ : Vec3) / (3 * EARTHRADIUS)) ⟨0, 1, 0⟩ = 0 := by
    simp [dot, Vec3.div_def]
  have hn : dot ((⟨-(3 * EARTHRADIUS), 0, 0⟩ : Vec3) / (3 * EARTHRADIUS)) ⟨0, 0, 1⟩ = 0 := by
    simp [dot, Vec3.div_def]
  have hu : dot ((⟨-(3 * EARTHRADIUS), 0, 0⟩ : Vec3) / (3 * EARTHRADIUS)) ⟨1, 0, 0⟩ = -1 := by
    simp [dot, Vec3.div_def]
    rw [neg_div, div_self (by linarith : (3 * EARTHRADIUS : ℝ) ≠ 0)]
  rw [he, hn, hu]
  unfold Visibility.calculateAngle
  rw [normalisedAtan2_zero_zero, degrees_zero]
  have harcsin : Real.arcsin (-1) = -(Real.pi / 2) := by
    rw [Real.arcsin_neg, Real.arcsin_one]
  rw [harcsin]
  have h90 : degrees (-(Real.pi / 2)) = -90 := by
    unfold degrees
    field_simp
    ring
  rw [h90]

/-- Witness for C5: a satellite directly overhead of the station at
`(0°, 0°)` has elevation `90°` and is visible through a `5°` mask. -/
theorem isVisible_witness :
    Visibility.isVisible ⟨2 * EARTHRADIUS, 0, 0⟩ 0 0 5 = some true :=
  (isVisible_iff_elevation ⟨2 * EARTHRADIUS, 0, 0⟩ 0 0 5 90 0 stationAngle_up).1.mpr
    (by norm_num)

/-! ## Claim C6: the pass-time scan -/

/-- The per-sample data the scan branches on: the visibility flag, the sample
time, and the elevation/azimuth pair, computed per sample exactly as the scan
does. -/
noncomputable def annotateVisibility (station : ℝ × ℝ × ℝ) :
    List Visibility.Sample → Option (List (Bool × ℝ × ℝ × ℝ))
  | [] => some []
  | s :: rest =>
    (Visibility.stationAngle s.1 station.1 station.2.1).bind fun θα =>
      (annotateVisibility station rest).map
        ((if θα.1 - station.2.2 > 0 then true else false, s.2.2, θα.1, θα.2) :: ·)

/-- Reference pass-record list following the amended claim's words: one
record per visible run that is closed by a later not-visible sample — rise
data from the first visible sample of the run (a run beginning at the first
trajectory sample also counts as a rise), set time at the first subsequent
not-visible sample, duration set−rise — and nothing for a run still open at
the end of the trajectory. -/
noncomputable def passRecordsSpec (lat lon : ℝ) :
    Option (ℝ × ℝ × ℝ) → List (Bool × ℝ × ℝ × ℝ) → List Visibility.PassRecord
  | _, [] => []
  | none, item :: rest =>
    if item.1 = true then
      passRecordsSpec lat lon (some (item.2.1, item.2.2.1, item.2.2.2)) rest
    else passRecordsSpec lat lon none rest
  | some ri, item :: rest =>
    if item.1 = true then passRecordsSpec lat lon (some ri) rest
    else
      (lat, lon, ri.1, item.2.1, item.2.1 - ri.1, ri.2.1, ri.2.2) ::
        passRecordsSpec lat lon none rest

theorem passLoop_eq (station : ℝ × ℝ × ℝ) :
    ∀ (data : List Visibility.Sample) (ann : List (Bool × ℝ × ℝ × ℝ)),
      annotateVisibility station data = some ann →
      ∀ (seen : Bool) (start θ α : ℝ) (acc : List Visibility.PassRecord),
        Visibility.passLoop station data (seen, start, θ, α, acc) =
          some (acc ++ passRecordsSpec station.1 station.2.1
            (if seen then some (start, θ, α) else none) ann) := by
  intro data
  induction data with
  | nil =>
    intro ann hann seen start θ α acc
    obtain rfl : ([] : List (Bool × ℝ × ℝ × ℝ)) = ann := Option.some.inj hann
    simp [Visibility.passLoop, passRecordsSpec]
  | cons s rest ih =>
    intro ann hann seen start θ α acc
    simp only [annotateVisibility] at hann
    rcases hθα : Visibility.stationAngle s.1 station.1 station.2.1 with _ | θα
    · rw [hθα] at hann; exact absurd hann (by simp)
    · rw [hθα, Option.some_bind] at hann
      rcases hrec : annotateVisibility station rest with _ | ann'
      · rw [hrec] at hann; exact absurd hann (by simp)
      · rw [hrec, Option.map_some'] at hann
        obtain rfl := Option.some.inj hann
        simp only [Visibility.passLoop]
        have hvis : Visibility.isVisible s.1 station.1 station.2.1 station.2.2 =
            some (if θα.1 - station.2.2 > 0 then true else false) := by
          unfold Visibility.isVisible
          rw [hθα, Option.map_some']
        rcases hb : (if θα.1 - station.2.2 > 0 then true else false) with _ | _
        all_goals rw [hb] at hvis
        all_goals rw [hvis, Option.some_bind]
        all_goals rcases seen with _ | _
        · -- vis = false, seen = false: state unchanged
          rw [if_neg (by simp), if_neg (by simp)]
          rw [ih ann' hrec false start θ α acc]
          simp only [Bool.false_eq_true, if_false, passRecordsSpec]
        · -- vis = false, seen = true: close the pass
          rw [if_neg (by simp), if_pos (by simp)]
          rw [ih ann' hrec false start θ α _]
          simp only [Bool.false_eq_true, if_false, if_true, passRecordsSpec]
          simp
        · -- vis = true, seen = false: open a pass at this sample
          rw [if_pos (by simp), hθα, Option.some_bind]
          rw [ih ann' hrec true s.2.2 θα.1 θα.2 acc]
          simp only [Bool.false_eq_true, if_false, if_true, passRecordsSpec]
        · -- vis = true, seen = true: state unchanged
          rw [if_neg (by simp), if_neg (by simp)]
          rw [ih ann' hrec true start θ α acc]
          simp only [if_true, passRecordsSpec]

/-- Claim C6 is false as stated: a trajectory that starts already visible
(no preceding not-visible sample, hence no complete
not-visible→visible→not-visible sequence and no later rise) still produces a
record, with the trajectory's first sample taken as the rise.  Here the
satellite starts overhead of the station (elevation 90°) and is below the
horizon at the second sample, and the scan emits a record rising at time 0. -/
theorem passScan_start_straddling_recorded :
    getStationPassTimes
      [(⟨2 * EARTHRADIUS, 0, 0⟩, ⟨0, 0, 0⟩, 0), (⟨-(2 * EARTHRADIUS), 0, 0⟩, ⟨0, 0, 0⟩, 1)]
      (0, 0, 5) = some [(0, 0, 0, 1, 1, 90, 0)] := by
  have hvis0 : Visibility.isVisible ⟨2 * EARTHRADIUS, 0, 0⟩ 0 0 5 = some true := by
    unfold Visibility.isVisible
    rw [stationAngle_up, Option.map_some']
    norm_num
  have hvis1 : Visibility.isVisible ⟨-(2 * EARTHRADIUS), 0, 0⟩ 0 0 5 = some false := by
    unfold Visibility.isVisible
    rw [stationAngle_down, Option.map_some']
    norm_num
  unfold getStationPassTimes
  simp only [Visibility.passLoop]
  rw [hvis0, Option.some_bind]
  rw [if_pos (by simp)]
  rw [stationAngle_up, Option.some_bind]
  rw [hvis1, Option.some_bind]
  rw [if_neg (by simp), if_pos (by simp)]
  norm_num

/-- Claim C6 (corrected): given the per-sample visibility and rise data, the
scan returns exactly the reference records of `passRecordsSpec`: one record
per visible run closed by a not-visible sample, rise data from the run's
first visible sample — including a run that begins at the first trajectory
sample, which the original claim said would never be recorded — set time at
the first subsequent not-visible sample, duration set−rise, and no record
for a pass still open at the end of the trajectory. -/
theorem getStationPassTimes_eq_spec (data : List Visibility.Sample)
    (station : ℝ × ℝ × ℝ) (ann : List (Bool × ℝ × ℝ × ℝ))
    (hann : annotateVisibility station data = some ann) :
    getStationPassTimes data station =
      some (passRecordsSpec station.1 station.2.1 none ann) := by
  unfold getStationPassTimes
  have h := passLoop_eq station data ann hann false 0 0 0 []
  simpa using h

/-- Witness for the corrected C6 on the concrete two-sample trajectory of the
counterexample. -/
theorem getStationPassTimes_eq_spec_witness :
    getStationPassTimes
      [(⟨2 * EARTHRADIUS, 0, 0⟩, ⟨0, 0, 0⟩, 0), (⟨-(2 * EARTHRADIUS), 0, 0⟩, ⟨0, 0, 0⟩, 1)]
      (0, 0, 5) =
      some (passRecordsSpec 0 0 none [(true, 0, 90, 0), (false, 1, -90, 0)]) := by
  apply getStationPassTimes_eq_spec
  simp only [annotateVisibility, stationAngle_up, stationAngle_down,
    Option.some_bind, Option.map_some']
  norm_num

/-! ## Claim C10: the two copies of the Gaussian P vector -/

/-- Claim C10 is false: the historical top-level `calculateP` differs from
the converters copy at `(Ω, ω, i) = (0, π/2, 0)`, where the y components are
`−1` and `+1` respectively (the legacy copy negates the
`cos Ω·cos i·sin ω` term). -/
theorem calculateP_copies_differ :
    Kep2CartLegacy.calculateP 0 (Real.pi / 2) 0 ≠
      Kep2Cart.calculateP 0 (Real.pi / 2) 0 := by
  intro hcontra
  have hy := congrArg Vec3.y hcontra
  simp only [Kep2CartLegacy.calculateP, Kep2Cart.calculateP] at hy
  rw [Real.sin_zero, Real.cos_zero, Real.sin_pi_div_two, Real.cos_pi_div_two] at hy
  norm_num at hy

/-- Claim C10 (corrected): the two copies agree in the x and z components,
but the y component of the historical copy flips the sign of the
`cos Ω·cos i·sin ω` term, so they differ by `2·cos Ω·cos i·sin ω` in y. -/
theorem calculateP_copies_relation (Ω ω i : ℝ) :
    Kep2CartLegacy.calculateP Ω ω i =
      ⟨(Kep2Cart.calculateP Ω ω i).x,
       (Kep2Cart.calculateP Ω ω i).y - 2 * Real.cos Ω * Real.cos i * Real.sin ω,
       (Kep2Cart.calculateP Ω ω i).z⟩ := by
  apply Vec3.ext_iff.mpr
  refine ⟨rfl, ?_, rfl⟩
  simp only [Kep2CartLegacy.calculateP, Kep2Cart.calculateP]
  ring

/-! ## Claim C1: the element round-trip -/

theorem cos_normalisedAtan2_val {y x : ℝ} (h : ¬(x = 0 ∧ y = 0)) :
    Real.cos (normalisedAtan2 y x) = x / Real.sqrt (x ^ 2 + y ^ 2) := by
  rw [cos_normalisedAtan2, cos_atan2 h]

theorem sin_normalisedAtan2_val (y x : ℝ) :
    Real.sin (normalisedAtan2 y x) = y / Real.sqrt (x ^ 2 + y ^ 2) := by
  rw [sin_normalisedAtan2, sin_atan2]

theorem cross_eq_zero_of_right_zero (R : Vec3) : cross R ⟨0, 0, 0⟩ = ⟨0, 0, 0⟩ := by
  simp [cross]

set_option maxHeartbeats 1000000 in
/-- C1: for every non-degenerate state — `R × V` off the polar axis (so the
inclination is neither 0 nor π and the node line is defined) and eccentricity
strictly between 0 and 1 — converting to Keplerian elements with `cart2kep`
and back with `kep2cart` reproduces `(R, V)` exactly, hence in particular to
within 1e-8 absolute/relative error. -/
theorem cart2kep_kep2cart_roundtrip (R V : Vec3)
    (he0 : 0 < (cart2kep R V).e) (he1 : (cart2kep R V).e < 1)
    (hw : (cross R V).x ≠ 0 ∨ (cross R V).y ≠ 0) :
    kep2cart (cart2kep R V) = (R, V) := by
  set b := cross R V with hbdef
  set hnn := norm b with hnndef
  set W := Cart2Kep.calculateUnitOrbitNormal b with hWdef
  set i := Cart2Kep.calculateInclination W with hidef
  set Omg := Cart2Kep.calculateRAAN W with hOmgdef
  set r := Cart2Kep.vectorLength R with hrdef
  set v := Cart2Kep.vectorLength V with hvdef
  set a := Cart2Kep.calculateSemiMajAxis R V with hadef
  set p := Cart2Kep.calculateP b with hpdef
  set e := Cart2Kep.calculateEccentricity a p with hedef
  set n := Cart2Kep.calculateMeanMotion a with hndef
  set E := Cart2Kep.calculateE R V a n with hEdef
  set nu := Cart2Kep.calculateTrueAnom E e with hnudef
  set u := Cart2Kep.calculateU R i Omg with hudef
  set om := Cart2Kep.calculateArgofPer u nu with homdef
  -- the elements record
  have he0' : 0 < e := he0
  have he1' : e < 1 := he1
  -- nondegeneracy basics
  have hb0 : b ≠ ⟨0, 0, 0⟩ := by
    intro hc
    rcases hw with h | h
    · exact h (by rw [hc])
    · exact h (by rw [hc])
  have hnnpos : 0 < hnn := norm_pos_of_ne hb0
  have hR0 : R ≠ ⟨0, 0, 0⟩ := by
    intro hc
    apply hb0
    rw [hbdef, hc]
    exact cross_eq_zero_of_left_zero V
  have hV0 : V ≠ ⟨0, 0, 0⟩ := by
    intro hc
    apply hb0
    rw [hbdef, hc]
    exact cross_eq_zero_of_right_zero R
  have hrpos : 0 < r := norm_pos_of_ne hR0
  have hvpos : 0 < v := norm_pos_of_ne hV0
  have hgm : 0 < GM := GM_pos
  have hppos : 0 < p := by
    have hp' : p = hnn ^ 2 / GM := rfl
    rw [hp']
    positivity
  -- eccentricity and semi-major axis
  have hedef' : e = Real.sqrt (1 - p / a) := rfl
  have h1pa : 0 < 1 - p / a := Real.sqrt_pos.mp (by rw [← hedef']; exact he0')
  have he2 : e ^ 2 = 1 - p / a := by rw [hedef']; exact Real.sq_sqrt h1pa.le
  have h1me2 : 0 < 1 - e ^ 2 := by
    have h1 : 0 < 1 - e := by linarith
    have h2 : 0 < 1 + e := by linarith
    have h3 : (1 - e) * (1 + e) = 1 - e ^ 2 := by ring
    have h4 := mul_pos h1 h2
    linarith
  have hpa : 0 < p / a := by linarith [he2, h1me2]
  have hapos : 0 < a := by
    rcases div_pos_iff.mp hpa with ⟨_, h⟩ | ⟨h, _⟩
    · exact h
    · linarith
  have hdinv : 2 / r - v ^ 2 / GM = 1 / a := by
    have ha' : a = 1 / (2 / r - v ^ 2 / GM) := rfl
    have hd0 : 2 / r - v ^ 2 / GM ≠ 0 := by
      intro h0
      rw [ha', h0] at hapos
      norm_num at hapos
    rw [ha', one_div_one_div]
  -- mean motion
  have hnval : n = Real.sqrt (GM / a ^ 3) := rfl
  have hnpos : 0 < n := by
    rw [hnval]
    exact Real.sqrt_pos.mpr (by positivity)
  have hn2 : n ^ 2 * a ^ 3 = GM := by
    rw [hnval, Real.sq_sqrt (by positivity : (0:ℝ) ≤ GM / a ^ 3)]
    field_simp
  have hF2 : (a ^ 2 * n) ^ 2 = a * GM := by
    have h1 : (a ^ 2 * n) ^ 2 = a * (n ^ 2 * a ^ 3) := by ring
    rw [h1, hn2]
  have hsqrt_aGM : Real.sqrt (a * GM) = a ^ 2 * n := by
    rw [← hF2, Real.sqrt_sq (by positivity)]
  -- squares of the norms
  have hr2 : r ^ 2 = R.x ^ 2 + R.y ^ 2 + R.z ^ 2 := norm_sq R
  have hv2 : v ^ 2 = V.x ^ 2 + V.y ^ 2 + V.z ^ 2 := norm_sq V
  have hnn2 : hnn ^ 2 = b.x ^ 2 + b.y ^ 2 + b.z ^ 2 := norm_sq b
  have hp2 : p * GM = hnn ^ 2 := by
    have hp' : p = hnn ^ 2 / GM := rfl
    rw [hp']
    field_simp
  -- the unit orbit normal
  have hWx : W.x = b.x / hnn := rfl
  have hWy : W.y = b.y / hnn := rfl
  have hWz : W.z = b.z / hnn := rfl
  have hWunit : W.x ^ 2 + W.y ^ 2 + W.z ^ 2 = 1 := by
    rw [hWx, hWy, hWz]
    field_simp
    linear_combination -hnn2
  have hRW : R.x * W.x + R.y * W.y + R.z * W.z = 0 := by
    rw [hWx, hWy, hWz, hbdef]
    field_simp
    simp [cross]
    ring
  have hVW : V.x * W.x + V.y * W.y + V.z * W.z = 0 := by
    rw [hWx, hWy, hWz, hbdef]
    field_simp
    simp [cross]
    ring
  -- the in-plane node frame scale
  set s := Real.sqrt (W.x ^ 2 + W.y ^ 2) with hsdef
  have hs2 : s ^ 2 = W.x ^ 2 + W.y ^ 2 := Real.sq_sqrt (by positivity)
  have hspos : 0 < s := by
    rw [hsdef]
    apply Real.sqrt_pos.mpr
    rcases hw with h | h
    · have hx : W.x ≠ 0 := by
        rw [hWx]
        exact div_ne_zero h (ne_of_gt hnnpos)
      have h2 : 0 < W.x ^ 2 := sq_pos_of_ne_zero hx
      linarith [sq_nonneg W.y]
    · have hy : W.y ≠ 0 := by
        rw [hWy]
        exact div_ne_zero h (ne_of_gt hnnpos)
      have h2 : 0 < W.y ^ 2 := sq_pos_of_ne_zero hy
      linarith [sq_nonneg W.x]
  -- inclination
  have hival : i = normalisedAtan2 s W.z := rfl
  have hzs1 : W.z ^ 2 + s ^ 2 = 1 := by rw [hs2]; linarith [hWunit]
  have hpairi : ¬(W.z = 0 ∧ s = 0) := by
    rintro ⟨h1, h2⟩
    rw [h1, h2] at hzs1
    norm_num at hzs1
  have hci : Real.cos i = W.z := by
    rw [hival, cos_normalisedAtan2_val hpairi, hzs1, Real.sqrt_one, div_one]
  have hsi : Real.sin i = s := by
    rw [hival, sin_normalisedAtan2_val, hzs1, Real.sqrt_one, div_one]
  -- RAAN
  have hOmgval : Omg = normalisedAtan2 W.x (-W.y) := rfl
  have hpairo : ¬(-W.y = 0 ∧ W.x = 0) := by
    rintro ⟨h1, h2⟩
    have hy0 : W.y = 0 := by linarith [neg_eq_zero.mp h1]
    have h3 : (0 : ℝ) < s ^ 2 := pow_pos hspos 2
    rw [h2, hy0] at hs2
    norm_num at hs2
    linarith
  have hsqo : (-W.y) ^ 2 + W.x ^ 2 = s ^ 2 := by rw [hs2]; ring
  have hcOmg : Real.cos Omg = -W.y / s := by
    rw [hOmgval, cos_normalisedAtan2_val hpairo, hsqo, Real.sqrt_sq hspos.le]
  have hsOmg : Real.sin Omg = W.x / s := by
    rw [hOmgval, sin_normalisedAtan2_val, hsqo, Real.sqrt_sq hspos.le]
  -- eccentric anomaly at epoch
  have hlag : (dot R V) ^ 2 + (b.x ^ 2 + b.y ^ 2 + b.z ^ 2) =
      (R.x ^ 2 + R.y ^ 2 + R.z ^ 2) * (V.x ^ 2 + V.y ^ 2 + V.z ^ 2) := by
    rw [hbdef]
    simp only [dot, cross]
    ring
  have hrv2 : (dot R V) ^ 2 = r ^ 2 * v ^ 2 - hnn ^ 2 := by
    rw [hr2, hv2, hnn2]
    linarith [hlag]
  have hEval : E = normalisedAtan2 (dot R V / (a ^ 2 * n)) (1 - r / a) := rfl
  have ha0 : a ≠ 0 := ne_of_gt hapos
  have hn0 : n ≠ 0 := ne_of_gt hnpos
  have hr0 : r ≠ 0 := ne_of_gt hrpos
  have hgm0 : GM ≠ 0 := ne_of_gt hgm
  have he0'' : e ≠ 0 := ne_of_gt he0'
  have hs0 : s ≠ 0 := ne_of_gt hspos
  have hnn0 : hnn ≠ 0 := ne_of_gt hnnpos
  have hveq : v ^ 2 * (r * a) = 2 * GM * a - GM * r := by
    have h1 := hdinv
    field_simp at h1
    linarith [h1]
  have hpa2 : e ^ 2 * a = a - p := by
    have h1 := he2
    field_simp at h1
    linarith [h1]
  have hABe : (1 - r / a) ^ 2 + (dot R V / (a ^ 2 * n)) ^ 2 = e ^ 2 := by
    field_simp
    linear_combination a ^ 2 * hrv2 + a * r * hveq - a ^ 5 * n ^ 2 * hpa2 +
      a ^ 2 * hp2 + (a ^ 2 * p + a * r ^ 2 - 2 * a ^ 2 * r) * hn2
  have hpairE : ¬((1 - r / a) = 0 ∧ dot R V / (a ^ 2 * n) = 0) := by
    rintro ⟨h1, h2⟩
    rw [h1, h2] at hABe
    have h3 := pow_pos he0' 2
    norm_num at hABe
    linarith [hABe.symm]
  have hcE : Real.cos E = (1 - r / a) / e := by
    rw [hEval, cos_normalisedAtan2_val hpairE, hABe, Real.sqrt_sq he0'.le]
  have hsE : Real.sin E = (dot R V / (a ^ 2 * n)) / e := by
    rw [hEval, sin_normalisedAtan2_val, hABe, Real.sqrt_sq he0'.le]
  have hecosE : e * Real.cos E = 1 - r / a := by
    rw [hcE]
    field_simp
    ring
  have hesinE : e * Real.sin E = dot R V / (a ^ 2 * n) := by
    rw [hsE]
    field_simp
    ring
  have hscE : Real.sin E ^ 2 + Real.cos E ^ 2 = 1 := by
    rw [hcE, hsE]
    rw [div_pow (dot R V / (a ^ 2 * n)) e, div_pow (1 - r / a) e, div_add_div_same]
    rw [show (dot R V / (a ^ 2 * n)) ^ 2 + (1 - r / a) ^ 2 = e ^ 2 by linarith [hABe]]
    exact div_self (pow_ne_zero 2 he0'')
  have hrE : r = a * (1 - e * Real.cos E) := by
    rw [hecosE]
    field_simp
  have hDpos : 0 < 1 - e * Real.cos E := by
    rw [hecosE, show (1 : ℝ) - (1 - r / a) = r / a by ring]
    positivity
  have hD0 : (1 : ℝ) - e * Real.cos E ≠ 0 := ne_of_gt hDpos
  -- the sqrt(1 - e^2) factor
  set g := Real.sqrt (1 - e ^ 2) with hgdef
  have hg2 : g ^ 2 = 1 - e ^ 2 := Real.sq_sqrt h1me2.le
  have hgpos : 0 < g := Real.sqrt_pos.mpr h1me2
  have hg0 : g ≠ 0 := ne_of_gt hgpos
  -- true anomaly
  have hnuval : nu = normalisedAtan2 (g * Real.sin E) (Real.cos E - e) := rfl
  have hDsq : (Real.cos E - e) ^ 2 + (g * Real.sin E) ^ 2 = (1 - e * Real.cos E) ^ 2 := by
    linear_combination Real.sin E ^ 2 * hg2 + (1 - e ^ 2) * hscE
  have hpairnu : ¬(Real.cos E - e = 0 ∧ g * Real.sin E = 0) := by
    rintro ⟨h1, h2⟩
    rw [h1, h2] at hDsq
    have h3 := pow_pos hDpos 2
    norm_num at hDsq
    linarith [hDsq]
  have hcnu : Real.cos nu = (Real.cos E - e) / (1 - e * Real.cos E) := by
    rw [hnuval, cos_normalisedAtan2_val hpairnu, hDsq, Real.sqrt_sq hDpos.le]
  have hsnu : Real.sin nu = g * Real.sin E / (1 - e * Real.cos E) := by
    rw [hnuval, sin_normalisedAtan2_val, hDsq, Real.sqrt_sq hDpos.le]
  have hscnu : Real.sin nu ^ 2 + Real.cos nu ^ 2 = 1 := by
    rw [hcnu, hsnu, div_pow, div_pow, div_add_div_same]
    rw [show (g * Real.sin E) ^ 2 + (Real.cos E - e) ^ 2 = (1 - e * Real.cos E) ^ 2 by
      linarith [hDsq]]
    exact div_self (pow_ne_zero 2 hD0)
  -- argument of latitude
  have huval : u = normalisedAtan2 (R.z / s) (R.x * (-W.y / s) + R.y * (W.x / s)) := by
    have h1 : u = normalisedAtan2 (R.z / Real.sin i)
        (R.x * Real.cos Omg + R.y * Real.sin Omg) := rfl
    rw [h1, hsi, hcOmg, hsOmg]
  have huBA : (R.x * (-W.y / s) + R.y * (W.x / s)) ^ 2 + (R.z / s) ^ 2 = r ^ 2 := by
    rw [show R.x * (-W.y / s) + R.y * (W.x / s) = (R.y * W.x - R.x * W.y) / s by ring]
    rw [div_pow (R.y * W.x - R.x * W.y) s, div_pow R.z s, div_add_div_same]
    rw [div_eq_iff (pow_ne_zero 2 hs0)]
    linear_combination (-(s ^ 2)) * hr2 - (R.x ^ 2 + R.y ^ 2 + R.z ^ 2) * hs2 -
      (R.x * W.x + R.y * W.y - R.z * W.z) * hRW - R.z ^ 2 * hWunit
  have hpairu : ¬(R.x * (-W.y / s) + R.y * (W.x / s) = 0 ∧ R.z / s = 0) := by
    rintro ⟨h1, h2⟩
    rw [h1, h2] at huBA
    have h3 := pow_pos hrpos 2
    norm_num at huBA
    linarith [huBA.symm]
  have hcu : Real.cos u = (R.x * (-W.y / s) + R.y * (W.x / s)) / r := by
    rw [huval, cos_normalisedAtan2_val hpairu, huBA, Real.sqrt_sq hrpos.le]
  have hsu : Real.sin u = (R.z / s) / r := by
    rw [huval, sin_normalisedAtan2_val, huBA, Real.sqrt_sq hrpos.le]
  -- product-form relations for the certificate algebra
  have hcuP : Real.cos u * (r * s) = R.y * W.x - R.x * W.y := by
    rw [hcu]
    field_simp
    ring
  have hsuP : Real.sin u * (r * s) = R.z := by
    rw [hsu]
    field_simp
    exact Or.inl (by ring)
  have hcOP : Real.cos Omg * s = -W.y := by
    rw [hcOmg]
    field_simp
  have hsOP : Real.sin Omg * s = W.x := by
    rw [hsOmg]
    field_simp
  have hcnuP : Real.cos nu * (1 - e * Real.cos E) = Real.cos E - e := by
    rw [hcnu]
    field_simp
  have hsnuP : Real.sin nu * (1 - e * Real.cos E) = g * Real.sin E := by
    rw [hsnu]
    field_simp
  have hecosEP : e * Real.cos E * a = a - r := by
    have h1 := hecosE
    field_simp at h1
    linarith [h1]
  have hesinEP : e * Real.sin E * (a ^ 2 * n) = dot R V := by
    have h1 := hesinE
    field_simp at h1
    linarith [h1]
  -- the expansion of the argument of perigee
  have homval : om = u - nu := rfl
  have hcom : Real.cos om = Real.cos u * Real.cos nu + Real.sin u * Real.sin nu := by
    rw [homval, Real.cos_sub]
  have hsom : Real.sin om = Real.sin u * Real.cos nu - Real.cos u * Real.sin nu := by
    rw [homval, Real.sin_sub]
  -- the reconstructed radial distance
  have hrd : Kep2Cart.calculateSemLatRect a e / (1 + e * Real.cos nu) = r := by
    rw [show (1 : ℝ) + e * Real.cos nu = (1 - e ^ 2) / (1 - e * Real.cos E) by
      rw [hcnu]; field_simp; ring]
    unfold Kep2Cart.calculateSemLatRect
    rw [div_div_eq_mul_div, hrE]
    field_simp
    ring
  -- the elements record and the goal
  have hkep : cart2kep R V =
      ⟨a, e, normaliseAngle i, normaliseAngle Omg, normaliseAngle om,
       normaliseAngle nu⟩ := rfl
  rw [hkep]
  simp only [kep2cart, Kep2Cart.calculateGausVects, Kep2Cart.calculateP,
    Kep2Cart.calculateQ, Kep2Cart.calculateRadDist, Kep2Cart.calculatePosition,
    Kep2Cart.calculateVelocity, cos_normaliseAngle, sin_normaliseAngle]
  rw [hrd]
  -- node-frame resolution of the position and the transverse direction
  have hLx : r * (Real.cos Omg * Real.cos u - Real.sin Omg * Real.cos i * Real.sin u) =
      R.x := by
    rw [hcOmg, hsOmg, hci, hcu, hsu]
    field_simp
    linear_combination (-(r ^ 2 * s ^ 3 * W.x)) * hRW - r ^ 2 * s ^ 3 * R.x * hs2
  have hLy : r * (Real.sin Omg * Real.cos u + Real.cos Omg * Real.cos i * Real.sin u) =
      R.y := by
    rw [hcOmg, hsOmg, hci, hcu, hsu]
    field_simp
    linear_combination (-(r ^ 2 * s ^ 3 * W.y)) * hRW - r ^ 2 * s ^ 3 * R.y * hs2
  have hLz : r * (Real.sin i * Real.sin u) = R.z := by
    rw [hsi, hsu]
    field_simp
    ring
  have hTx : r * (-(Real.cos Omg) * Real.sin u - Real.sin Omg * Real.cos i * Real.cos u) =
      W.y * R.z - W.z * R.y := by
    rw [hcOmg, hsOmg, hci, hcu, hsu]
    field_simp
    linear_combination (r ^ 2 * s ^ 3 * W.y * W.z) * hRW +
      (r ^ 2 * s ^ 3 * (W.z * R.y - W.y * R.z)) * hs2 -
      (r ^ 2 * s ^ 3 * W.y * R.z) * hWunit
  have hTy : r * (-(Real.sin Omg) * Real.sin u + Real.cos Omg * Real.cos i * Real.cos u) =
      W.z * R.x - W.x * R.z := by
    rw [hcOmg, hsOmg, hci, hcu, hsu]
    field_simp
    linear_combination (-(r ^ 2 * s ^ 3 * W.x * W.z)) * hRW +
      (r ^ 2 * s ^ 3 * (W.x * R.z - W.z * R.x)) * hs2 +
      (r ^ 2 * s ^ 3 * W.x * R.z) * hWunit
  have hTz : r * (Real.sin i * Real.cos u) = W.x * R.y - W.y * R.x := by
    rw [hsi, hcu]
    field_simp
    ring
  -- the magnitude identities
  have hgan : g * (a ^ 2 * n) = hnn := by
    have h1 : (g * (a ^ 2 * n)) ^ 2 = hnn ^ 2 := by
      have h2 : (g * (a ^ 2 * n)) ^ 2 = g ^ 2 * (a ^ 2 * n) ^ 2 := by ring
      rw [h2, hg2, hF2]
      have h3 : (1 - e ^ 2) * (a * GM) = p * GM + (a - p - e ^ 2 * a) * GM := by ring
      rw [h3, hp2]
      linear_combination (-GM) * hpa2
    have h4 : 0 ≤ g * (a ^ 2 * n) := by positivity
    calc g * (a ^ 2 * n) = Real.sqrt ((g * (a ^ 2 * n)) ^ 2) := (Real.sqrt_sq h4).symm
    _ = Real.sqrt (hnn ^ 2) := by rw [h1]
    _ = hnn := Real.sqrt_sq hnnpos.le
  -- completeness of the (radial, transverse, normal) frame
  have hCx : dot R V * R.x + hnn * (W.y * R.z - W.z * R.y) = V.x * r ^ 2 := by
    rw [hWy, hWz, hr2, hbdef]
    simp only [dot, cross]
    field_simp
    ring
  have hCy : dot R V * R.y + hnn * (W.z * R.x - W.x * R.z) = V.y * r ^ 2 := by
    rw [hWx, hWz, hr2, hbdef]
    simp only [dot, cross]
    field_simp
    ring
  have hCz : dot R V * R.z + hnn * (W.x * R.y - W.y * R.x) = V.z * r ^ 2 := by
    rw [hWx, hWy, hr2, hbdef]
    simp only [dot, cross]
    field_simp
    ring
  -- eliminating the true anomaly from the velocity factors
  have hA1 : -Real.sin E * Real.cos nu + g * Real.cos E * Real.sin nu = e * Real.sin E := by
    apply mul_right_cancel₀ hD0
    linear_combination (-Real.sin E) * hcnuP + (g * Real.cos E) * hsnuP +
      (Real.cos E * Real.sin E) * hg2
  have hA2 : Real.sin E * Real.sin nu + g * Real.cos E * Real.cos nu = g := by
    apply mul_right_cancel₀ hD0
    linear_combination Real.sin E * hsnuP + (g * Real.cos E) * hcnuP + g * hscE
  -- the velocity sub-step values
  have hsinE2 : r * Real.sin nu / (a * g) = Real.sin E := by
    rw [div_eq_iff (by positivity : a * g ≠ 0)]
    linear_combination a * hsnuP + Real.sin nu * hrE
  have hcosE2 : r * Real.cos nu / a + e = Real.cos E := by
    rw [div_add' _ _ _ ha0, div_eq_iff ha0]
    linear_combination a * hcnuP + Real.cos nu * hrE
  refine Prod.ext_iff.mpr ⟨Vec3.ext_iff.mpr ⟨?_, ?_, ?_⟩, Vec3.ext_iff.mpr ⟨?_, ?_, ?_⟩⟩
  · rw [hcom, hsom]
    linear_combination (r * (Real.cos Omg * Real.cos u -
      Real.sin Omg * Real.cos i * Real.sin u)) * hscnu + hLx
  · rw [hcom, hsom]
    linear_combination (r * (Real.sin Omg * Real.cos u +
      Real.cos Omg * Real.cos i * Real.sin u)) * hscnu + hLy
  · rw [hcom, hsom]
    linear_combination (r * (Real.sin i * Real.sin u)) * hscnu + hLz
  · rw [hcom, hsom, ← hgdef, hsqrt_aGM, hsinE2, hcosE2]
    field_simp
    linear_combination hCx + R.x * hesinEP + (W.y * R.z - W.z * R.y) * hgan +
      (e * Real.sin E * (a ^ 2 * n)) * hLx + (g * (a ^ 2 * n)) * hTx +
      (a ^ 2 * n * r * (Real.cos Omg * Real.cos u - Real.sin Omg * Real.cos i * Real.sin u)) * hA1 +
      (a ^ 2 * n * r * (-(Real.cos Omg * Real.sin u) - Real.sin Omg * Real.cos i * Real.cos u)) * hA2
  · rw [hcom, hsom, ← hgdef, hsqrt_aGM, hsinE2, hcosE2]
    field_simp
    linear_combination hCy + R.y * hesinEP + (W.z * R.x - W.x * R.z) * hgan +
      (e * Real.sin E * (a ^ 2 * n)) * hLy + (g * (a ^ 2 * n)) * hTy +
      (a ^ 2 * n * r * (Real.sin Omg * Real.cos u + Real.cos Omg * Real.cos i * Real.sin u)) * hA1 +
      (a ^ 2 * n * r * (-(Real.sin Omg * Real.sin u) + Real.cos Omg * Real.cos i * Real.cos u)) * hA2
  · rw [hcom, hsom, ← hgdef, hsqrt_aGM, hsinE2, hcosE2]
    field_simp
    linear_combination hCz + R.z * hesinEP + (W.x * R.y - W.y * R.x) * hgan +
      (e * Real.sin E * (a ^ 2 * n)) * hLz + (g * (a ^ 2 * n)) * hTz +
      (a ^ 2 * n * r * (Real.sin i * Real.sin u)) * hA1 +
      (a ^ 2 * n * r * (Real.sin i * Real.cos u)) * hA2

/-- Witness for C1: the concrete state `R = (1, 0, 0)`,
`V = (0, √GM/2, √GM/2)` has eccentricity 1/2 and angular momentum off the
polar axis, and the round trip reproduces it exactly. -/
theorem cart2kep_kep2cart_roundtrip_witness :
    (0 < (cart2kep ⟨1, 0, 0⟩ ⟨0, Real.sqrt GM / 2, Real.sqrt GM / 2⟩).e ∧
      (cart2kep ⟨1, 0, 0⟩ ⟨0, Real.sqrt GM / 2, Real.sqrt GM / 2⟩).e < 1 ∧
      ((cross ⟨1, 0, 0⟩ ⟨0, Real.sqrt GM / 2, Real.sqrt GM / 2⟩).x ≠ 0 ∨
        (cross ⟨1, 0, 0⟩ ⟨0, Real.sqrt GM / 2, Real.sqrt GM / 2⟩).y ≠ 0)) ∧
    kep2cart (cart2kep ⟨1, 0, 0⟩ ⟨0, Real.sqrt GM / 2, Real.sqrt GM / 2⟩) =
      (⟨1, 0, 0⟩, ⟨0, Real.sqrt GM / 2, Real.sqrt GM / 2⟩) := by
  have hGM : (0 : ℝ) < GM := GM_pos
  have hs2 : Real.sqrt GM ^ 2 = GM := Real.sq_sqrt hGM.le
  have hcross : cross ⟨1, 0, 0⟩ ⟨0, Real.sqrt GM / 2, Real.sqrt GM / 2⟩ =
      ⟨0, -(Real.sqrt GM / 2), Real.sqrt GM / 2⟩ := by
    simp [cross]
  have hnormc : norm ⟨0, -(Real.sqrt GM / 2), Real.sqrt GM / 2⟩ ^ 2 = GM / 2 := by
    simp only [norm]
    rw [Real.sq_sqrt (by positivity)]
    linear_combination hs2 / 2
  have hp : Cart2Kep.calculateP ⟨0, -(Real.sqrt GM / 2), Real.sqrt GM / 2⟩ = 1 / 2 := by
    rw [Cart2Kep.calculateP, hnormc]
    field_simp
    ring
  have hr : Cart2Kep.vectorLength ⟨(1 : ℝ), 0, 0⟩ = 1 := by
    simp [Cart2Kep.vectorLength]
  have hv2 : Cart2Kep.vectorLength ⟨(0 : ℝ), Real.sqrt GM / 2, Real.sqrt GM / 2⟩ ^ 2 =
      GM / 2 := by
    rw [Cart2Kep.vectorLength, Real.sq_sqrt (by positivity)]
    linear_combination hs2 / 2
  have ha : Cart2Kep.calculateSemiMajAxis ⟨1, 0, 0⟩ ⟨0, Real.sqrt GM / 2, Real.sqrt GM / 2⟩ =
      2 / 3 := by
    rw [Cart2Kep.calculateSemiMajAxis, hr, hv2]
    have hGMne : GM ≠ 0 := ne_of_gt hGM
    field_simp
    rw [show 2 * (2 * GM) - GM = 3 * GM by ring, div_eq_iff (by positivity)]
    ring
  have he : (cart2kep ⟨1, 0, 0⟩ ⟨0, Real.sqrt GM / 2, Real.sqrt GM / 2⟩).e = 1 / 2 := by
    simp only [cart2kep]
    rw [hcross, hp, ha, Cart2Kep.calculateEccentricity]
    rw [show (1 : ℝ) - 1 / 2 / (2 / 3) = (1 / 2) ^ 2 by norm_num]
    exact Real.sqrt_sq (by norm_num)
  have hy : (cross ⟨1, 0, 0⟩ ⟨0, Real.sqrt GM / 2, Real.sqrt GM / 2⟩).y ≠ 0 := by
    rw [hcross]
    show -(Real.sqrt GM / 2) ≠ 0
    have hspos : 0 < Real.sqrt GM := Real.sqrt_pos.mpr hGM
    exact neg_ne_zero.mpr (ne_of_gt (by positivity))
  refine ⟨⟨by rw [he]; norm_num, by rw [he]; norm_num, Or.inr hy⟩, ?_⟩
  exact cart2kep_kep2cart_roundtrip _ _ (by rw [he]; norm_num) (by rw [he]; norm_num)
    (Or.inr hy)

end PySpace
